import Mathlib

/-!
# simple-api-proxy: rate limiting, key selection and outbound-path selection

A shallow embedding of `internal/utils/ratelimiter.go` and of the dispatch part
of `internal/api/client.go`.

Conventions of the embedding.

* Times are monotonic clock readings in nanoseconds (`Int`); `time.Duration`
  is an `Int` number of nanoseconds and `Time.Sub` saturates at the bounds of
  a signed 64-bit integer, as in the Go standard library.
* Go `int` counters are `Int`.  `requests++` is executed only when
  `requests < limit`, hence never leaves the 64-bit range and no wrap-around is
  modelled for it.  The `atomic.Int32` cursor is wrapped explicitly.
* A pointer to a limiter that lives in a map or a slice is modelled by writing
  the updated limiter back to the place it was read from.
* Every `time.Now()` consumes the next reading of a clock oracle and every
  `time.Sleep` is recorded; both appear, in order, in the trace of the world.
-/

namespace ApiProxy

/-! ## Time -/

/-- One millisecond, in nanoseconds (`time.Millisecond`). -/
def Millisecond : Int := 1000000

/-- One second, in nanoseconds (`time.Second`). -/
def Second : Int := 1000000000

/-- Largest `time.Duration` (`math.MaxInt64`). -/
def maxDuration : Int := 9223372036854775807

/-- Smallest `time.Duration` (`math.MinInt64`). -/
def minDuration : Int := -9223372036854775808

/-- Go `Time.Sub`: the difference `t - u`, saturated to the range of a
`time.Duration`. -/
def Sub (t u : Int) : Int :=
  if t - u > maxDuration then maxDuration
  else if t - u < minDuration then minDuration
  else t - u

/-! ## ratelimiter.go : RateLimiter -/

/-- Go struct `RateLimiter` (the mutex is not modelled: calls are sequential). -/
structure RateLimiter where
  limit : Int
  window : Int
  requests : Int
  lastReset : Int
deriving DecidableEq, Repr

/-- Go `NewRateLimiter(rps)`, with `now` the reading of `time.Now()`. -/
def NewRateLimiter (rps : Int) (now : Int) : RateLimiter :=
  { limit := rps, window := Second, requests := 0, lastReset := now }

/-- Go `(*RateLimiter).Allow`, with `now` the reading of `time.Now()`;
returns the boolean and the limiter as mutated. -/
def RateLimiter.Allow (rl : RateLimiter) (now : Int) : Bool × RateLimiter :=
  let rl1 : RateLimiter :=
    if Sub now rl.lastReset ≥ rl.window then
      { rl with requests := 0, lastReset := now }
    else rl
  if rl1.requests ≥ rl1.limit then (false, rl1)
  else (true, { rl1 with requests := rl1.requests + 1 })

/-- Go `(*RateLimiter).IsLimited`, with `now` the reading of `time.Now()`;
returns the boolean and the limiter as mutated. -/
def RateLimiter.IsLimited (rl : RateLimiter) (now : Int) : Bool × RateLimiter :=
  let elapsed := Sub now rl.lastReset
  if elapsed ≥ rl.window then
    (false, { rl with requests := 0, lastReset := now })
  else (decide (rl.requests ≥ rl.limit), rl)

/-- Successive `Allow` calls on one limiter at the given clock readings:
the booleans returned, in order, and the final limiter. -/
def allowSeq : RateLimiter → List Int → List Bool × RateLimiter
  | rl, [] => ([], rl)
  | rl, t :: ts =>
    let r := rl.Allow t
    let rest := allowSeq r.2 ts
    (r.1 :: rest.1, rest.2)

/-- The two operations of a limiter. -/
inductive LimiterOp where
  | allow
  | isLimited
deriving DecidableEq, Repr

/-- One call on a limiter: the operation and the clock reading it makes. -/
def stepOp (rl : RateLimiter) (c : LimiterOp × Int) : Bool × RateLimiter :=
  match c.1 with
  | LimiterOp.allow => rl.Allow c.2
  | LimiterOp.isLimited => rl.IsLimited c.2

/-- Number of `Allow` calls that return true at a clock reading inside the
closed interval `[a, b]`, along a sequence of calls starting from `rl`. -/
def allowedIn (a b : Int) : RateLimiter → List (LimiterOp × Int) → Nat
  | _, [] => 0
  | rl, c :: cs =>
    let r := stepOp rl c
    (if c.1 = LimiterOp.allow ∧ r.1 = true ∧ a ≤ c.2 ∧ c.2 ≤ b then 1 else 0)
      + allowedIn a b r.2 cs

/-- The limiter states visited by a sequence of calls, the initial one first. -/
def statesAlong : RateLimiter → List (LimiterOp × Int) → List RateLimiter
  | rl, [] => [rl]
  | rl, c :: cs => rl :: statesAlong (stepOp rl c).2 cs

/-! ## Go maps as association lists -/

/-- Map read `m[k]` with the comma-ok form: the value of the first entry
whose key is `k`. -/
def lookup {β : Type} (k : String) : List (String × β) → Option β
  | [] => none
  | (k1, v) :: rest => if k1 = k then some v else lookup k rest

/-- Map write `m[k] = v`: replaces the entry of `k`, or adds one. -/
def store {β : Type} (k : String) (v : β) : List (String × β) → List (String × β)
  | [] => [(k, v)]
  | (k1, v1) :: rest => if k1 = k then (k, v) :: rest else (k1, v1) :: store k v rest

/-! ## net/http headers -/

/-- Go `validHeaderFieldByte` of net/textproto: the token characters of
RFC 7230. -/
def validHeaderFieldByte (c : Char) : Bool :=
  c.isAlphanum || "!#$%&'*+-.^_`|~".data.contains c

/-- The rewriting loop of Go `canonicalMIMEHeaderKey`: upper case for the
first letter and for a letter after a hyphen, lower case elsewhere. -/
def canonChars : Bool → List Char → List Char
  | _, [] => []
  | upper, c :: cs =>
    let c1 : Char :=
      if upper && c.isLower then c.toUpper
      else if !upper && c.isUpper then c.toLower
      else c
    c1 :: canonChars (c1 == '-') cs

/-- Go `textproto.CanonicalMIMEHeaderKey` (standard library, used by
`Header.Add` and `Header.Set`): a key with a byte that is not a token
character is returned unchanged. -/
def CanonicalMIMEHeaderKey (s : String) : String :=
  if s.data.all validHeaderFieldByte then String.mk (canonChars true s.data) else s

/-- Go `http.Header`, a `map[string][]string`; the order of the list is
the order in which `range` visits the map. -/
abbrev Header := List (String × List String)

/-- Go `Header.Values(key)`: the values under the canonical form of `key`
(none when the key is absent). -/
def Header.Values (h : Header) (key : String) : List String :=
  (lookup (CanonicalMIMEHeaderKey key) h).getD []

/-- Go `Header.Add(key, value)`. -/
def Header.Add (h : Header) (key value : String) : Header :=
  store (CanonicalMIMEHeaderKey key)
    ((lookup (CanonicalMIMEHeaderKey key) h).getD [] ++ [value]) h

/-- Go `Header.Set(key, value)`. -/
def Header.Set (h : Header) (key value : String) : Header :=
  store (CanonicalMIMEHeaderKey key) [value] h

/-- client.go lines 160-166: the loop copying the inbound headers, except
the one named exactly like the configured key header. -/
def copyHeaders (cfgKey : String) : Header → Header → Header
  | [], out => out
  | (key, values) :: rest, out =>
    if key ≠ cfgKey then
      copyHeaders cfgKey rest (values.foldl (fun o value => Header.Add o key value) out)
    else copyHeaders cfgKey rest out

/-- client.go lines 160-170: the header set of the outbound request, which
starts empty (`http.NewRequestWithContext`). -/
def outboundHeader (cfgKey : String) (inbound : Header) (apiKey : String) : Header :=
  let h0 := copyHeaders cfgKey inbound []
  let h1 := Header.Set h0 cfgKey apiKey
  let h2 := Header.Set h1 "Accept" "application/json"
  Header.Set h2 "Content-Type" "application/json"

/-! ## The world: clock, sleeps, registry, pool and cursor -/

/-- Go `utils.ClientWrapper`; the transport is named by the proxy URL it was
built from (`none` for the direct one). -/
structure ClientWrapper where
  Client : Option String
  RateLimiter : Option RateLimiter
  IsDirect : Bool
deriving DecidableEq, Repr

/-- The inbound request, as far as the handler reads it. -/
structure Request where
  Method : String
  Path : String
  RawQuery : String
  Header : Header
deriving DecidableEq, Repr

/-- The outbound request built by the handler. -/
structure OutRequest where
  Method : String
  Domain : String
  Path : String
  RawQuery : String
  Header : Header
deriving DecidableEq, Repr

/-- What the program does to its surroundings, in order. -/
inductive Event where
  | now (t : Int)
  | sleep (d : Int)
  | send (path : Nat) (req : OutRequest)
deriving DecidableEq, Repr

/-- The surroundings of the program. `clk n` is the reading of the monotonic
clock made by the `n`-th call of `time.Now()`; `shuffle n keys` is the order in
which the `n`-th `range` over the key pool visits it (Go leaves it open);
`createProxyClient u` tells whether `utils.CreateProxyClient(u)` returns a
client (it fails when `url.Parse` or `proxy.SOCKS5` fails); `urlParse d` and
`newRequest m` tell whether `url.Parse` and `http.NewRequestWithContext`
succeed; `roundTrip t idx req` is the answer of `Client.Do(req)` on the path
at `idx` after `t` clock readings: the status of the upstream, or `none` for a
transport error. -/
structure Env where
  clk : Nat → Int
  shuffle : Nat → List (String × Int) → List (String × Int)
  createProxyClient : String → Bool
  urlParse : String → Bool
  newRequest : String → Bool
  roundTrip : Nat → Nat → OutRequest → Option Nat

/-- The surroundings in which the clock is `clk`, every `range` visits the
key pool in the order it is stored, every library call succeeds and the
upstream answers every request with status 200. -/
def Env.plain (clk : Nat → Int) : Env :=
  { clk := clk, shuffle := fun _ l => l, createProxyClient := fun _ => true,
    urlParse := fun _ => true, newRequest := fun _ => true,
    roundTrip := fun _ _ _ => some 200 }

/-- The surroundings of `Env.plain`, with an upstream that answers every
request with the given status. -/
def Env.answering (clk : Nat → Int) (status : Nat) : Env :=
  { clk := clk, shuffle := fun _ l => l, createProxyClient := fun _ => true,
    urlParse := fun _ => true, newRequest := fun _ => true,
    roundTrip := fun _ _ _ => some status }

/-- The clock that shows the listed readings, in milliseconds, one after
another and then stays at the last one. -/
def clockOfMillis (ts : List Int) : Nat → Int :=
  fun n => (ts.getD n (ts.getLastD 0)) * Millisecond

/-- The clock that advances by 1 ms from one reading to the next up to the
seventh reading and by 100 ms from then on. -/
def clockSteps (n : Nat) : Int :=
  (if n ≤ 7 then (n : Int) else 7 + ((n : Int) - 7) * 100) * Millisecond

/-- The mutable state: `tick` clock readings and `ranges` loops over the key
pool made so far, the trace, the registry `rateLimiters.limiters`, the pool
`clients` and the `atomic.Int32` cursor `proxyIndex`. -/
structure World where
  tick : Nat
  ranges : Nat
  trace : List Event
  limiters : List (String × RateLimiter)
  clients : List ClientWrapper
  proxyIndex : Int
deriving DecidableEq, Repr

/-- Go `time.Now()`. -/
def timeNow (env : Env) (w : World) : Int × World :=
  (env.clk w.tick,
   { w with tick := w.tick + 1, trace := w.trace ++ [Event.now (env.clk w.tick)] })

/-- Go `time.Sleep(d)`. -/
def timeSleep (d : Int) (w : World) : World :=
  { w with trace := w.trace ++ [Event.sleep d] }

/-- The order in which the next `range` over the key pool visits it. -/
def rangeKeys (env : Env) (keys : List (String × Int)) (w : World) :
    List (String × Int) × World :=
  (env.shuffle w.ranges keys, { w with ranges := w.ranges + 1 })

/-! ## ratelimiter.go : RateLimiterManager -/

/-- Go `(*RateLimiterManager).GetLimiter`: the limiter returned and the world
after the call. -/
def GetLimiter (env : Env) (key : String) (rps : Int) (w : World) : RateLimiter × World :=
  match lookup key w.limiters with
  | some limiter => (limiter, w)
  | none =>
    let r := timeNow env w
    let limiter := NewRateLimiter rps r.1
    (limiter, { r.2 with limiters := store key limiter r.2.limiters })

/-- One of the two `for key, limit := range keys` loops of `GetAvailableKey`,
over the keys in the order given. The registry never holds a nil limiter
(`GetLimiter` is its only writer), so `limiter != nil` is true. -/
def scanKeys (env : Env) : List (String × Int) → World → Option (String × Int) × World
  | [], w => (none, w)
  | (key, limit) :: rest, w =>
    match lookup key w.limiters with
    | none => (some (key, limit), w)
    | some limiter =>
      let r := timeNow env w
      let p := limiter.IsLimited r.1
      let w1 : World := { r.2 with limiters := store key p.2 r.2.limiters }
      if !p.1 then (some (key, limit), w1) else scanKeys env rest w1

/-- Go `(*RateLimiterManager).GetAvailableKey`. -/
def GetAvailableKey (env : Env) (keys : List (String × Int)) (w : World) :
    (String × Int) × World :=
  let o1 := rangeKeys env keys w
  match scanKeys env o1.1 o1.2 with
  | (some kl, w1) => (kl, w1)
  | (none, w1) =>
    let w2 := timeSleep (50 * Millisecond) w1
    let o2 := rangeKeys env keys w2
    match scanKeys env o2.1 o2.2 with
    | (some kl, w3) => (kl, w3)
    | (none, w3) => (("", 0), w3)

/-- The calls the program makes on the registry and on the limiters in it:
`GetLimiter`, and `Allow` or `IsLimited` on the limiter of a key. -/
inductive RegistryOp where
  | getLimiter (key : String) (rps : Int)
  | allow (key : String)
  | isLimited (key : String)
deriving DecidableEq, Repr

/-- The world after one call on the registry. -/
def runOp (env : Env) : RegistryOp → World → World
  | RegistryOp.getLimiter key rps, w => (GetLimiter env key rps w).2
  | RegistryOp.allow key, w =>
    match lookup key w.limiters with
    | none => w
    | some limiter =>
      let r := timeNow env w
      { r.2 with limiters := store key (limiter.Allow r.1).2 r.2.limiters }
  | RegistryOp.isLimited key, w =>
    match lookup key w.limiters with
    | none => w
    | some limiter =>
      let r := timeNow env w
      { r.2 with limiters := store key (limiter.IsLimited r.1).2 r.2.limiters }

/-- The world after a sequence of calls on the registry. -/
def runOps (env : Env) : List RegistryOp → World → World
  | [], w => w
  | op :: ops, w => runOps env ops (runOp env op w)

/-! ## config.go and client.go -/

/-- Go `config.Config` (`ProxyType` is never read by the code). -/
structure Config where
  Domain : String
  Key : String
  Values : List (List (String × Int))
  DirectAccess : Bool
  DirectAccessTPS : Int
  ProxyTPS : Int
  Proxies : List String
deriving DecidableEq, Repr

/-- The fields of Go `api.Client` that never change after `NewClient`; the
registry, the pool and the cursor are in the `World`. -/
structure Client where
  config : Config
  apiKeys : List (String × Int)
deriving DecidableEq, Repr

/-- A signed 32-bit integer from an integer (`int32(x)`, `atomic.Int32.Add`). -/
def wrap32 (x : Int) : Int :=
  (x + 2147483648) % 4294967296 - 2147483648

/-- The loop of `NewClient` over `cfg.Proxies`: a proxy whose client cannot
be created is skipped. -/
def addProxies (env : Env) (proxyTPS : Int) : List String → World → World
  | [], w => w
  | proxyURL :: rest, w =>
    if env.createProxyClient proxyURL then
      let r := timeNow env w
      let cw : ClientWrapper :=
        { Client := some proxyURL, RateLimiter := some (NewRateLimiter proxyTPS r.1),
          IsDirect := false }
      addProxies env proxyTPS rest { r.2 with clients := r.2.clients ++ [cw] }
    else addProxies env proxyTPS rest w

/-- Go `api.NewClient`: the registry and the pool start empty and the cursor
at 0; `none` when the pool ends up empty (`logger.Fatal`). -/
def NewClient (env : Env) (cfg : Config) (w : World) : Option (Client × World) :=
  let apiKeys : List (String × Int) :=
    cfg.Values.foldl (fun m keyLimit => keyLimit.foldl (fun m1 kl => store kl.1 kl.2 m1) m) []
  let w0 : World := { w with limiters := [], clients := [], proxyIndex := 0 }
  let w1 : World :=
    if cfg.DirectAccess then
      let r := timeNow env w0
      let cw : ClientWrapper :=
        { Client := none, RateLimiter := some (NewRateLimiter cfg.DirectAccessTPS r.1),
          IsDirect := true }
      { r.2 with clients := r.2.clients ++ [cw] }
    else w0
  let w2 := addProxies env cfg.ProxyTPS cfg.Proxies w1
  if w2.clients.length = 0 then none
  else some ({ config := cfg, apiKeys := apiKeys }, w2)

/-- One selection attempt that fails, followed by the fixed delay of
`getNextAPIKey`: the world after `GetAvailableKey` and the sleep. -/
def attemptThenDelay (env : Env) (c : Client) (w : World) : World :=
  timeSleep (100 * Millisecond) (GetAvailableKey env c.apiKeys w).2

/-- The loop of `getNextAPIKey`, with `n` iterations left. -/
def getNextAPIKeyLoop (env : Env) (c : Client) :
    Nat → World → (String × Int × Option String) × World
  | 0, w => (("", 0, some "all API keys are currently rate limited"), w)
  | n + 1, w =>
    let r := GetAvailableKey env c.apiKeys w
    if r.1.1 ≠ "" then ((r.1.1, r.1.2, none), r.2)
    else getNextAPIKeyLoop env c n (timeSleep (100 * Millisecond) r.2)

/-- Go `(*Client).getNextAPIKey` (`maxRetries := 3`): key, limit and error. -/
def getNextAPIKey (env : Env) (c : Client) (w : World) :
    (String × Int × Option String) × World :=
  getNextAPIKeyLoop env c 3 w

/-- The loop of `getNextClient` from iteration `i`, with `n` iterations
left: `some idx` when a path is selected, `none` when the loop ends; the
outer `none` is the run-time panic of an index out of range. -/
def scanClients (env : Env) (startIdx : Int) :
    Nat → Nat → World → Option (Option Nat × World)
  | _, 0, w => some (none, w)
  | i, n + 1, w =>
    let idx := Int.tmod (startIdx + (i : Int)) (w.clients.length : Int)
    if idx < 0 then none
    else
      match w.clients[idx.toNat]? with
      | none => none
      | some wrapper =>
        match wrapper.RateLimiter with
        | none => some (some idx.toNat, { w with proxyIndex := wrap32 idx })
        | some rl =>
          let r := timeNow env w
          let a := rl.Allow r.1
          let w1 : World :=
            { r.2 with
              clients := r.2.clients.set idx.toNat { wrapper with RateLimiter := some a.2 } }
          if a.1 then some (some idx.toNat, { w1 with proxyIndex := wrap32 idx })
          else scanClients env startIdx (i + 1) n w1

/-- Go `(*Client).getNextClient`: the index in the pool of the wrapper
returned (the error returned is always nil); `none` is a run-time panic
(index out of range, or division by zero on an empty pool). -/
def getNextClient (env : Env) (w : World) : Option (Nat × World) :=
  match scanClients env w.proxyIndex 0 w.clients.length w with
  | none => none
  | some (some idx, w1) => some (idx, w1)
  | some (none, w1) =>
    let w2 := timeSleep (50 * Millisecond) w1
    let w3 : World := { w2 with proxyIndex := wrap32 (w2.proxyIndex + 1) }
    if w3.clients.length = 0 then none
    else
      let idx := Int.tmod w3.proxyIndex (w3.clients.length : Int)
      if idx < 0 then none
      else if idx.toNat < w3.clients.length then some (idx.toNat, w3)
      else none

/-- Go `(*Client).ProxyHandler`, one request: the status code written to the
caller; `none` is a run-time panic, of `getNextClient` or of
`w.WriteHeader(resp.StatusCode)`, which net/http makes panic for a code below
100 or above 999 (the transport keeps the informational responses other than
101 to itself, so a status it hands over is written as the final one). -/
def ProxyHandler (env : Env) (c : Client) (r : Request) (w : World) : Option (Nat × World) :=
  if r.Method = "OPTIONS" then some (200, w)
  else
    let k := getNextAPIKey env c w
    match k.1.2.2 with
    | some _ => some (429, k.2)
    | none =>
      let g := GetLimiter env k.1.1 k.1.2.1 k.2
      let t := timeNow env g.2
      let a := g.1.Allow t.1
      let w1 : World := { t.2 with limiters := store k.1.1 a.2 t.2.limiters }
      if !a.1 then some (429, w1)
      else
        match getNextClient env w1 with
        | none => none
        | some (idx, w2) =>
          if !env.urlParse c.config.Domain then some (500, w2)
          else if !env.newRequest r.Method then some (500, w2)
          else
            let outReq : OutRequest :=
              { Method := r.Method, Domain := c.config.Domain, Path := r.Path,
                RawQuery := r.RawQuery,
                Header := outboundHeader c.config.Key r.Header k.1.1 }
            let w3 : World := { w2 with trace := w2.trace ++ [Event.send idx outReq] }
            match env.roundTrip w3.tick idx outReq with
            | none => some (502, w3)
            | some status =>
              if status < 100 ∨ status > 999 then none else some (status, w3)

/-- Consecutive calls of `getNextClient`: the indices returned, in order. -/
def selectPaths (env : Env) : Nat → World → Option (List Nat × World)
  | 0, w => some ([], w)
  | n + 1, w =>
    match getNextClient env w with
    | none => none
    | some (idx, w1) =>
      match selectPaths env n w1 with
      | none => none
      | some (rest, w2) => some (idx :: rest, w2)

/-- Requests handled one after another: the status codes, in order. -/
def handleAll (env : Env) (c : Client) : List Request → World → Option (List Nat × World)
  | [], w => some ([], w)
  | r :: rs, w =>
    match ProxyHandler env c r w with
    | none => none
    | some (status, w1) =>
      match handleAll env c rs w1 with
      | none => none
      | some (rest, w2) => some (status :: rest, w2)

/-- The world before `NewClient` runs. -/
def World.start : World :=
  { tick := 0, ranges := 0, trace := [], limiters := [], clients := [], proxyIndex := 0 }

/-- A trace agrees with a monotonic clock: `last` is the latest reading (or
the earliest time the next one can show), every reading is at least `last`
and a sleep of `d` moves that bound by `d`. -/
def clockAgrees : Option Int → List Event → Bool
  | _, [] => true
  | last, Event.now t :: rest =>
    (match last with
     | none => true
     | some l => decide (l ≤ t)) && clockAgrees (some t) rest
  | last, Event.sleep d :: rest => clockAgrees (last.map (fun l => l + d)) rest
  | last, Event.send _ _ :: rest => clockAgrees last rest

/-! ## Lemmas on the limiter -/

theorem Sub_ge_Second (t u : Int) : Sub t u ≥ Second ↔ t - u ≥ Second := by
  unfold Sub maxDuration minDuration Second
  split_ifs <;> omega

theorem Allow_eq_of_not_elapsed (rl : RateLimiter) (now : Int)
    (h : ¬ Sub now rl.lastReset ≥ rl.window) :
    rl.Allow now =
      if rl.requests ≥ rl.limit then (false, rl)
      else (true, { rl with requests := rl.requests + 1 }) := by
  simp only [RateLimiter.Allow, if_neg h]

theorem allowSeq_within_window (n : Nat) :
    ∀ (rl : RateLimiter) (ts : List Int), ts.length = n →
      0 ≤ rl.requests → rl.requests ≤ rl.limit →
      (∀ t ∈ ts, Sub t rl.lastReset < rl.window) →
      (allowSeq rl ts).1 =
          List.replicate (min n (rl.limit - rl.requests).toNat) true ++
            List.replicate (n - min n (rl.limit - rl.requests).toNat) false ∧
        (allowSeq rl ts).2 =
          { rl with requests := rl.requests + min (n : Int) (rl.limit - rl.requests) } := by
  induction n with
  | zero =>
    intro rl ts hlen _ _ _
    have : ts = [] := List.length_eq_zero.mp hlen
    subst this
    have hm : rl.requests + min ((0 : Nat) : Int) (rl.limit - rl.requests) = rl.requests := by
      omega
    rw [hm]
    simp [allowSeq]
  | succ n ih =>
    intro rl ts hlen h0 h1 hts
    match ts, hlen with
    | t :: ts, hlen =>
      have hlen1 : ts.length = n := by simpa using hlen
      have ht : ¬ Sub t rl.lastReset ≥ rl.window := by
        have := hts t (List.mem_cons_self _ _)
        omega
      have hrest : ∀ u ∈ ts, Sub u rl.lastReset < rl.window :=
        fun u hu => hts u (List.mem_cons_of_mem _ hu)
      by_cases hfull : rl.requests ≥ rl.limit
      · have hstep : rl.Allow t = (false, rl) := by
          rw [Allow_eq_of_not_elapsed rl t ht, if_pos hfull]
        have hk : (rl.limit - rl.requests).toNat = 0 := by omega
        obtain ⟨ih1, ih2⟩ := ih rl ts hlen1 h0 h1 hrest
        simp only [allowSeq, hstep]
        rw [ih1, ih2, hk]
        constructor
        · simp [List.replicate_succ]
        · congr 1
          omega
      · have hstep : rl.Allow t = (true, { rl with requests := rl.requests + 1 }) := by
          rw [Allow_eq_of_not_elapsed rl t ht, if_neg hfull]
        obtain ⟨ih1, ih2⟩ := ih { rl with requests := rl.requests + 1 } ts hlen1
          (by simp only; omega) (by simp only; omega) hrest
        simp only [allowSeq, hstep]
        rw [ih1, ih2]
        simp only
        have hk : (rl.limit - rl.requests).toNat = (rl.limit - (rl.requests + 1)).toNat + 1 := by
          omega
        rw [hk]
        constructor
        · rw [Nat.succ_min_succ, List.replicate_succ, Nat.succ_sub_succ]
          simp
        · congr 1
          omega

/-- C1. On a limiter freshly built by `NewRateLimiter Q` with `Q` positive,
`N` successive `Allow` calls whose clock readings all fall inside the window
opened at creation return true for exactly the first `min N Q` calls and false
for all the others, and the request count afterwards is `min N Q`. -/
theorem allow_exactly_min_within_window (Q : Int) (hQ : 0 < Q) (t0 : Int) (ts : List Int)
    (hts : ∀ t ∈ ts, Sub t (NewRateLimiter Q t0).lastReset < Second) :
    (allowSeq (NewRateLimiter Q t0) ts).1 =
        List.replicate (min ts.length Q.toNat) true ++
          List.replicate (ts.length - min ts.length Q.toNat) false ∧
      (allowSeq (NewRateLimiter Q t0) ts).2.requests = min (ts.length : Int) Q ∧
      (allowSeq (NewRateLimiter Q t0) ts).2.lastReset = t0 := by
  have h := allowSeq_within_window ts.length (NewRateLimiter Q t0) ts rfl
    (by simp [NewRateLimiter]) (by simp only [NewRateLimiter]; omega)
    (by simpa [NewRateLimiter] using hts)
  obtain ⟨h1, h2⟩ := h
  rw [h1, h2]
  simp [NewRateLimiter]

/-- Witness of C1: quota 2, five calls in the window opened at time 0. -/
theorem allow_exactly_min_within_window_witness :
    (allowSeq (NewRateLimiter 2 0) [0, 10, 20, 30, 999999999]).1 =
        [true, true, false, false, false] ∧
      (allowSeq (NewRateLimiter 2 0) [0, 10, 20, 30, 999999999]).2.requests = 2 := by
  have h := allow_exactly_min_within_window 2 (by decide) 0 [0, 10, 20, 30, 999999999]
    (by decide)
  exact ⟨by simpa using h.1, by simpa using h.2.1⟩

/-- Counterexample to C7 as stated: a limiter of quota 5 created at time 0 and
used three times has count 3; `IsLimited` called one second later sets the
count to 0. -/
theorem IsLimited_mutates_count :
    (allowSeq (NewRateLimiter 5 0) [0, 0, 0]).2.requests = 3 ∧
      ((allowSeq (NewRateLimiter 5 0) [0, 0, 0]).2.IsLimited 1000000000).2.requests = 0 := by
  decide

/-- C7, amended. `IsLimited` never increments the count. When the window has
elapsed at the call it resets the count to 0, moves the window start to the
call time and returns false (first part: the window has not elapsed, or the
call returns false and that limiter). When the window has not elapsed it
changes nothing and answers whether the count has reached the quota (second
part). So the count after the call is the count before it or 0 (third part).
A second `IsLimited` call made inside the window in effect after the first
one, with no `Allow` in between, changes nothing and returns the same boolean
as the first, except when the first call rolled the window over on a limiter
whose quota is not positive (fourth part). -/
theorem IsLimited_count_and_repeat (rl : RateLimiter) (t1 t2 : Int) :
    (Sub t1 rl.lastReset < rl.window ∨
        rl.IsLimited t1 = (false, { rl with requests := 0, lastReset := t1 })) ∧
      (Sub t1 rl.lastReset ≥ rl.window ∨
        rl.IsLimited t1 = (decide (rl.requests ≥ rl.limit), rl)) ∧
      ((rl.IsLimited t1).2.requests = rl.requests ∨ (rl.IsLimited t1).2.requests = 0) ∧
      (Sub t2 (rl.IsLimited t1).2.lastReset ≥ rl.window ∨
        (Sub t1 rl.lastReset ≥ rl.window ∧ rl.limit ≤ 0) ∨
        (((rl.IsLimited t1).2.IsLimited t2).1 = (rl.IsLimited t1).1 ∧
          ((rl.IsLimited t1).2.IsLimited t2).2 = (rl.IsLimited t1).2)) := by
  by_cases h1 : Sub t1 rl.lastReset ≥ rl.window
  · have e1 : rl.IsLimited t1 = (false, { rl with requests := 0, lastReset := t1 }) := by
      simp only [RateLimiter.IsLimited, if_pos h1]
    refine ⟨Or.inr e1, Or.inl h1, Or.inr (by rw [e1]), ?_⟩
    rw [e1]
    by_cases h2 : Sub t2 t1 ≥ rl.window
    · exact Or.inl h2
    · by_cases hq : rl.limit ≤ 0
      · exact Or.inr (Or.inl ⟨h1, hq⟩)
      · refine Or.inr (Or.inr ?_)
        have hq1 : ¬ (0 : Int) ≥ rl.limit := by omega
        simp [RateLimiter.IsLimited, h2, hq1]
  · have e1 : rl.IsLimited t1 = (decide (rl.requests ≥ rl.limit), rl) := by
      simp only [RateLimiter.IsLimited, if_neg h1]
    refine ⟨Or.inl (by omega), Or.inr e1, Or.inl (by rw [e1]), ?_⟩
    rw [e1]
    by_cases h2 : Sub t2 rl.lastReset ≥ rl.window
    · exact Or.inl h2
    · exact Or.inr (Or.inr (by simp only [RateLimiter.IsLimited, if_neg h2, and_self]))

/-! ## The burst at a window edge -/

/-- What one call does to a limiter whose window is one second: `cnt` is 1
when the call is an `Allow` that returns true and 0 otherwise. -/
theorem stepOp_facts (rl : RateLimiter) (c : LimiterOp × Int) (hw : rl.window = Second) :
    (stepOp rl c).2.limit = rl.limit ∧ (stepOp rl c).2.window = rl.window ∧
      ∃ cnt : Int,
        (if c.1 = LimiterOp.allow ∧ (stepOp rl c).1 = true then (1 : Int) else 0) = cnt ∧
        (cnt = 0 ∨ cnt = 1) ∧
        ((c.2 - rl.lastReset ≥ Second ∧ (stepOp rl c).2.lastReset = c.2 ∧
            (stepOp rl c).2.requests = cnt ∧ (cnt = 0 ∨ 0 < rl.limit)) ∨
          (c.2 - rl.lastReset < Second ∧ (stepOp rl c).2.lastReset = rl.lastReset ∧
            (stepOp rl c).2.requests = rl.requests + cnt ∧
            (cnt = 0 ∨ rl.requests < rl.limit))) := by
  obtain ⟨op, t⟩ := c
  have hs := Sub_ge_Second t rl.lastReset
  cases op
  · by_cases h : Sub t rl.lastReset ≥ rl.window
    · have h' : t - rl.lastReset ≥ Second := hs.mp (hw ▸ h)
      by_cases hq : (0 : Int) ≥ rl.limit
      · refine ⟨?_, ?_, 0, ?_, Or.inl rfl, Or.inl ⟨h', ?_, ?_, Or.inl rfl⟩⟩ <;>
          simp [stepOp, RateLimiter.Allow, h, hq]
      · refine ⟨?_, ?_, 1, ?_, Or.inr rfl, Or.inl ⟨h', ?_, ?_, Or.inr (by omega)⟩⟩ <;>
          simp [stepOp, RateLimiter.Allow, h, hq]
    · have h' : t - rl.lastReset < Second := by
        have : ¬ t - rl.lastReset ≥ Second := fun hc => h (hw ▸ hs.mpr hc)
        omega
      by_cases hq : rl.requests ≥ rl.limit
      · refine ⟨?_, ?_, 0, ?_, Or.inl rfl, Or.inr ⟨h', ?_, ?_, Or.inl rfl⟩⟩ <;>
          simp [stepOp, RateLimiter.Allow, h, hq]
      · refine ⟨?_, ?_, 1, ?_, Or.inr rfl, Or.inr ⟨h', ?_, ?_, Or.inr (by omega)⟩⟩ <;>
          simp [stepOp, RateLimiter.Allow, h, hq]
  · by_cases h : Sub t rl.lastReset ≥ rl.window
    · have h' : t - rl.lastReset ≥ Second := hs.mp (hw ▸ h)
      refine ⟨?_, ?_, 0, ?_, Or.inl rfl, Or.inl ⟨h', ?_, ?_, Or.inl rfl⟩⟩ <;>
        simp [stepOp, RateLimiter.IsLimited, h]
    · have h' : t - rl.lastReset < Second := by
        have : ¬ t - rl.lastReset ≥ Second := fun hc => h (hw ▸ hs.mpr hc)
        omega
      refine ⟨?_, ?_, 0, ?_, Or.inl rfl, Or.inr ⟨h', ?_, ?_, Or.inl rfl⟩⟩ <;>
        simp [stepOp, RateLimiter.IsLimited, h]

/-- The summand of `allowedIn` for one call is at most the `cnt` of that
call. -/
theorem allowedIn_cons (a b : Int) (rl : RateLimiter) (c : LimiterOp × Int)
    (cs : List (LimiterOp × Int)) :
    (allowedIn a b rl (c :: cs) : Int) =
      (if c.1 = LimiterOp.allow ∧ (stepOp rl c).1 = true ∧ a ≤ c.2 ∧ c.2 ≤ b then (1 : Int) else 0)
        + (allowedIn a b (stepOp rl c).2 cs : Int) := by
  simp only [allowedIn]
  push_cast
  split_ifs <;> rfl

theorem allowedIn_after (a b : Int) :
    ∀ (cs : List (LimiterOp × Int)) (rl : RateLimiter),
      (∀ c ∈ cs, b < c.2) → allowedIn a b rl cs = 0 := by
  intro cs
  induction cs with
  | nil => intro rl _; rfl
  | cons c cs ih =>
    intro rl h
    have hc : ¬ (c.1 = LimiterOp.allow ∧ (stepOp rl c).1 = true ∧ a ≤ c.2 ∧ c.2 ≤ b) := by
      have := h c (List.mem_cons_self _ _)
      intro hh
      omega
    simp only [allowedIn, if_neg hc, zero_add]
    exact ih _ (fun d hd => h d (List.mem_cons_of_mem _ hd))

theorem summand_le (a b : Int) (rl : RateLimiter) (c : LimiterOp × Int) :
    (if c.1 = LimiterOp.allow ∧ (stepOp rl c).1 = true ∧ a ≤ c.2 ∧ c.2 ≤ b then (1 : Int) else 0)
      ≤ (if c.1 = LimiterOp.allow ∧ (stepOp rl c).1 = true then (1 : Int) else 0) := by
  by_cases h4 : c.1 = LimiterOp.allow ∧ (stepOp rl c).1 = true ∧ a ≤ c.2 ∧ c.2 ≤ b
  · rw [if_pos h4, if_pos ⟨h4.1, h4.2.1⟩]
  · rw [if_neg h4]
    split_ifs <;> decide

/-- Once the window start is less than a window before `b`, no call at a time
up to `b` resets the limiter: the calls allowed in `[a, b]` fit in what is
left of the quota. -/
theorem allowedIn_no_reset (a b : Int) :
    ∀ (cs : List (LimiterOp × Int)) (rl : RateLimiter),
      rl.window = Second → 0 ≤ rl.requests → b - rl.lastReset < Second →
      (cs.map Prod.snd).Sorted (· ≤ ·) →
      (allowedIn a b rl cs : Int) ≤ max 0 (rl.limit - rl.requests) := by
  intro cs
  induction cs with
  | nil => intro rl _ _ _ _; simp [allowedIn]
  | cons c cs ih =>
    intro rl hw hr hb hs
    have hs' : (cs.map Prod.snd).Sorted (· ≤ ·) := by
      simp only [List.map_cons, List.sorted_cons] at hs
      exact hs.2
    have hle : ∀ d ∈ cs, c.2 ≤ d.2 := by
      simp only [List.map_cons, List.sorted_cons] at hs
      intro d hd
      exact hs.1 d.2 (List.mem_map_of_mem _ hd)
    by_cases hcb : b < c.2
    · have h0 : allowedIn a b rl (c :: cs) = 0 := by
        apply allowedIn_after
        intro d hd
        rcases List.mem_cons.mp hd with rfl | hd
        · exact hcb
        · have := hle d hd
          omega
      rw [h0]
      simp
    · obtain ⟨hl, hw2, cnt, hcnt, h01, hcase⟩ := stepOp_facts rl c hw
      rw [allowedIn_cons]
      rcases hcase with ⟨hge, _, _, _⟩ | ⟨_, hlr, hreq, hq⟩
      · omega
      · have ihh := ih (stepOp rl c).2 (hw2.trans hw) (by rw [hreq]; omega) (by rw [hlr]; exact hb) hs'
        rw [hl, hreq] at ihh
        have hsum := summand_le a b rl c
        rw [hcnt] at hsum
        omega

/-- From a call at a time at or after `a` on, the calls allowed in `[a, b]`
are at most the quota plus what is left of the quota in the current window. -/
theorem allowedIn_from_start (a b : Int) (hab : b - a < Second) :
    ∀ (cs : List (LimiterOp × Int)) (rl : RateLimiter),
      rl.window = Second → 0 ≤ rl.limit → 0 ≤ rl.requests →
      (cs.map Prod.snd).Sorted (· ≤ ·) → (∀ d ∈ cs, a ≤ d.2) →
      (allowedIn a b rl cs : Int) ≤ rl.limit + max 0 (rl.limit - rl.requests) := by
  intro cs
  induction cs with
  | nil => intro rl _ hq _ _ _; simp only [allowedIn]; push_cast; omega
  | cons c cs ih =>
    intro rl hw hq hr hs ha
    have hs' : (cs.map Prod.snd).Sorted (· ≤ ·) := by
      simp only [List.map_cons, List.sorted_cons] at hs
      exact hs.2
    have hle : ∀ d ∈ cs, c.2 ≤ d.2 := by
      simp only [List.map_cons, List.sorted_cons] at hs
      intro d hd
      exact hs.1 d.2 (List.mem_map_of_mem _ hd)
    have hac : a ≤ c.2 := ha c (List.mem_cons_self _ _)
    have ha' : ∀ d ∈ cs, a ≤ d.2 := fun d hd => ha d (List.mem_cons_of_mem _ hd)
    by_cases hcb : b < c.2
    · have h0 : allowedIn a b rl (c :: cs) = 0 := by
        apply allowedIn_after
        intro d hd
        rcases List.mem_cons.mp hd with rfl | hd
        · exact hcb
        · have := hle d hd
          omega
      rw [h0]
      push_cast
      omega
    · obtain ⟨hl, hw2, cnt, hcnt, h01, hcase⟩ := stepOp_facts rl c hw
      rw [allowedIn_cons]
      have hsum := summand_le a b rl c
      rw [hcnt] at hsum
      rcases hcase with ⟨_, hlr, hreq, hq1⟩ | ⟨_, hlr, hreq, hq1⟩
      · have ihh := allowedIn_no_reset a b cs (stepOp rl c).2 (hw2.trans hw)
          (by rw [hreq]; omega) (by rw [hlr]; omega) hs'
        rw [hl, hreq] at ihh
        omega
      · have ihh := ih (stepOp rl c).2 (hw2.trans hw) (by rw [hl]; exact hq)
          (by rw [hreq]; omega) hs' ha'
        rw [hl, hreq] at ihh
        omega

/-- On any limiter state with a one-second window and a count that is not
negative, the calls allowed in an interval shorter than the window are at
most twice the quota. -/
theorem allowedIn_le_twice (a b : Int) (hab : b - a < Second) :
    ∀ (cs : List (LimiterOp × Int)) (rl : RateLimiter),
      rl.window = Second → 0 ≤ rl.limit → 0 ≤ rl.requests →
      (cs.map Prod.snd).Sorted (· ≤ ·) →
      (allowedIn a b rl cs : Int) ≤ 2 * rl.limit := by
  intro cs
  induction cs with
  | nil => intro rl _ hq _ _; simp only [allowedIn]; push_cast; omega
  | cons c cs ih =>
    intro rl hw hq hr hs
    have hs' : (cs.map Prod.snd).Sorted (· ≤ ·) := by
      simp only [List.map_cons, List.sorted_cons] at hs
      exact hs.2
    have hle : ∀ d ∈ cs, c.2 ≤ d.2 := by
      simp only [List.map_cons, List.sorted_cons] at hs
      intro d hd
      exact hs.1 d.2 (List.mem_map_of_mem _ hd)
    by_cases hca : a ≤ c.2
    · have h := allowedIn_from_start a b hab (c :: cs) rl hw hq hr hs (by
        intro d hd
        rcases List.mem_cons.mp hd with rfl | hd
        · exact hca
        · have := hle d hd
          omega)
      omega
    · obtain ⟨hl, hw2, cnt, _, h01, hcase⟩ := stepOp_facts rl c hw
      rw [allowedIn_cons]
      have hc : ¬ (c.1 = LimiterOp.allow ∧ (stepOp rl c).1 = true ∧ a ≤ c.2 ∧ c.2 ≤ b) :=
        fun hh => hca hh.2.2.1
      rw [if_neg hc]
      have hreq : 0 ≤ (stepOp rl c).2.requests := by
        rcases hcase with ⟨_, _, hreq, _⟩ | ⟨_, _, hreq, _⟩ <;> omega
      have ihh := ih (stepOp rl c).2 (hw2.trans hw) (by rw [hl]; exact hq) hreq hs'
      rw [hl] at ihh
      omega

/-- Each call leaves the window start where it is or moves it forward by at
least one window. -/
theorem lastReset_advances :
    ∀ (cs : List (LimiterOp × Int)) (rl : RateLimiter), rl.window = Second →
      List.Chain' (fun s s1 : RateLimiter =>
        s1.lastReset = s.lastReset ∨ s.lastReset + Second ≤ s1.lastReset) (statesAlong rl cs) := by
  intro cs
  induction cs with
  | nil => intro rl _; simp [statesAlong]
  | cons c cs ih =>
    intro rl hw
    obtain ⟨_, hw2, cnt, _, _, hcase⟩ := stepOp_facts rl c hw
    have ihh := ih (stepOp rl c).2 (hw2.trans hw)
    simp only [statesAlong]
    cases cs with
    | nil =>
      simp only [statesAlong, List.chain'_cons, List.chain'_singleton, and_true]
      rcases hcase with ⟨h1, h2, _, _⟩ | ⟨_, h2, _, _⟩
      · right; omega
      · left; exact h2
    | cons d ds =>
      simp only [statesAlong] at ihh ⊢
      rw [List.chain'_cons]
      refine ⟨?_, ihh⟩
      rcases hcase with ⟨h1, h2, _, _⟩ | ⟨_, h2, _, _⟩
      · right; omega
      · left; exact h2

/-- C9. On a limiter built with a quota `Q` that is not negative, along every
sequence of `Allow` and `IsLimited` calls made at non-decreasing times, the
`Allow` calls that return true at times inside one interval `[a, b]` shorter
than the window of one second are at most `2 * Q`; and each call leaves the
window start unchanged or moves it forward by at least one full window. -/
theorem burst_at_most_twice_quota (Q : Int) (hQ : 0 ≤ Q) (t0 : Int)
    (calls : List (LimiterOp × Int)) (hmono : (calls.map Prod.snd).Sorted (· ≤ ·))
    (a b : Int) (hab : b - a < Second) :
    (allowedIn a b (NewRateLimiter Q t0) calls : Int) ≤ 2 * Q ∧
      List.Chain' (fun s s1 : RateLimiter =>
        s1.lastReset = s.lastReset ∨ s.lastReset + Second ≤ s1.lastReset)
        (statesAlong (NewRateLimiter Q t0) calls) :=
  ⟨allowedIn_le_twice a b hab calls (NewRateLimiter Q t0) rfl hQ (le_refl _) hmono,
    lastReset_advances calls (NewRateLimiter Q t0) rfl⟩

/-- Witness of C9: quota 1, one call allowed at the end of the first window
and one right after the roll-over, both inside `[999999999, 1000000001]`. -/
theorem burst_at_most_twice_quota_witness :
    allowedIn 999999999 1000000001 (NewRateLimiter 1 0)
        [(LimiterOp.allow, 999999999), (LimiterOp.isLimited, 999999999),
          (LimiterOp.allow, 1000000000), (LimiterOp.allow, 1000000001)] = 2 ∧
      (allowedIn 999999999 1000000001 (NewRateLimiter 1 0)
        [(LimiterOp.allow, 999999999), (LimiterOp.isLimited, 999999999),
          (LimiterOp.allow, 1000000000), (LimiterOp.allow, 1000000001)] : Int) ≤ 2 * 1 :=
  ⟨by decide,
    (burst_at_most_twice_quota 1 (by decide) 0
      [(LimiterOp.allow, 999999999), (LimiterOp.isLimited, 999999999),
        (LimiterOp.allow, 1000000000), (LimiterOp.allow, 1000000001)]
      (by decide) 999999999 1000000001 (by decide)).1⟩

/-! ## The registry -/

theorem lookup_store_self {β : Type} (k : String) (v : β) :
    ∀ m : List (String × β), lookup k (store k v m) = some v := by
  intro m
  induction m with
  | nil => simp [store, lookup]
  | cons p m ih =>
    obtain ⟨k1, v1⟩ := p
    by_cases h : k1 = k
    · simp [store, lookup, h]
    · simp [store, lookup, h, ih]

theorem lookup_store_ne {β : Type} (k k1 : String) (v : β) (hne : k1 ≠ k) :
    ∀ m : List (String × β), lookup k1 (store k v m) = lookup k1 m := by
  intro m
  induction m with
  | nil =>
    have : ¬ k = k1 := fun h => hne h.symm
    simp [store, lookup, this]
  | cons p m ih =>
    obtain ⟨k2, v2⟩ := p
    by_cases h : k2 = k
    · subst h
      have : ¬ k2 = k1 := fun h => hne h.symm
      simp [store, lookup, this]
    · by_cases h1 : k2 = k1
      · subst h1
        simp [store, lookup, h]
      · simp [store, lookup, h, h1, ih]

theorem GetLimiter_of_some (env : Env) (key : String) (rps : Int) (w : World)
    (l : RateLimiter) (h : lookup key w.limiters = some l) :
    GetLimiter env key rps w = (l, w) := by
  simp only [GetLimiter, h]

theorem GetLimiter_of_none (env : Env) (key : String) (rps : Int) (w : World)
    (h : lookup key w.limiters = none) :
    GetLimiter env key rps w =
      (NewRateLimiter rps (env.clk w.tick),
        { tick := w.tick + 1, ranges := w.ranges,
          trace := w.trace ++ [Event.now (env.clk w.tick)],
          limiters := store key (NewRateLimiter rps (env.clk w.tick)) w.limiters,
          clients := w.clients, proxyIndex := w.proxyIndex }) := by
  simp only [GetLimiter, h, timeNow]

theorem Allow_limit (rl : RateLimiter) (now : Int) : (rl.Allow now).2.limit = rl.limit := by
  unfold RateLimiter.Allow
  simp only
  split_ifs <;> rfl

theorem IsLimited_limit (rl : RateLimiter) (now : Int) :
    (rl.IsLimited now).2.limit = rl.limit := by
  unfold RateLimiter.IsLimited
  simp only
  split_ifs <;> rfl

/-- No call on the registry changes the quota of a limiter that is in it. -/
theorem runOp_keeps_limit (env : Env) (op : RegistryOp) (w : World) (k : String)
    (rl : RateLimiter) (h : lookup k w.limiters = some rl) :
    ∃ rl1, lookup k (runOp env op w).limiters = some rl1 ∧ rl1.limit = rl.limit := by
  cases op with
  | getLimiter key rps =>
    simp only [runOp, GetLimiter]
    cases hk : lookup key w.limiters with
    | some l => exact ⟨rl, h, rfl⟩
    | none =>
      have hne : k ≠ key := by
        intro e
        rw [e, hk] at h
        cases h
      refine ⟨rl, ?_, rfl⟩
      simp only [timeNow]
      rw [lookup_store_ne key k _ hne]
      exact h
  | allow key =>
    simp only [runOp]
    cases hk : lookup key w.limiters with
    | none => exact ⟨rl, h, rfl⟩
    | some l =>
      simp only [timeNow]
      by_cases e : k = key
      · subst e
        rw [h] at hk
        cases hk
        exact ⟨_, lookup_store_self _ _ _, Allow_limit _ _⟩
      · exact ⟨rl, by rw [lookup_store_ne key k _ e]; exact h, rfl⟩
  | isLimited key =>
    simp only [runOp]
    cases hk : lookup key w.limiters with
    | none => exact ⟨rl, h, rfl⟩
    | some l =>
      simp only [timeNow]
      by_cases e : k = key
      · subst e
        rw [h] at hk
        cases hk
        exact ⟨_, lookup_store_self _ _ _, IsLimited_limit _ _⟩
      · exact ⟨rl, by rw [lookup_store_ne key k _ e]; exact h, rfl⟩

theorem runOps_keeps_limit (env : Env) (k : String) :
    ∀ (ops : List RegistryOp) (w : World) (rl : RateLimiter),
      lookup k w.limiters = some rl →
      ∃ rl1, lookup k (runOps env ops w).limiters = some rl1 ∧ rl1.limit = rl.limit := by
  intro ops
  induction ops with
  | nil => intro w rl h; exact ⟨rl, h, rfl⟩
  | cons op ops ih =>
    intro w rl h
    obtain ⟨rl1, h1, hl1⟩ := runOp_keeps_limit env op w k rl h
    obtain ⟨rl2, h2, hl2⟩ := ih (runOp env op w) rl1 h1
    exact ⟨rl2, h2, hl2.trans hl1⟩

/-- C6. When `k` has no limiter, `GetLimiter k q1` creates one with quota
`q1` and touches the limiter of no other identity; after any later calls on
the registry, `GetLimiter k q2` returns the limiter stored under `k`, whose
quota is still `q1`, and leaves the whole world, hence the count and the
window start of that limiter and every other limiter, as it was. -/
theorem GetLimiter_first_quota_wins (env : Env) (w : World) (k : String) (q1 q2 : Int)
    (ops : List RegistryOp) (hnone : lookup k w.limiters = none) :
    (GetLimiter env k q1 w).1 = NewRateLimiter q1 (env.clk w.tick) ∧
      (GetLimiter env k q1 w).1.limit = q1 ∧
      lookup k (GetLimiter env k q1 w).2.limiters = some (GetLimiter env k q1 w).1 ∧
      (∀ k1, k1 ≠ k →
        lookup k1 (GetLimiter env k q1 w).2.limiters = lookup k1 w.limiters) ∧
      lookup k (runOps env ops (GetLimiter env k q1 w).2).limiters =
        some (GetLimiter env k q2 (runOps env ops (GetLimiter env k q1 w).2)).1 ∧
      (GetLimiter env k q2 (runOps env ops (GetLimiter env k q1 w).2)).1.limit = q1 ∧
      (GetLimiter env k q2 (runOps env ops (GetLimiter env k q1 w).2)).2 =
        runOps env ops (GetLimiter env k q1 w).2 := by
  have e1 := GetLimiter_of_none env k q1 w hnone
  have hk : lookup k (GetLimiter env k q1 w).2.limiters =
      some (NewRateLimiter q1 (env.clk w.tick)) := by
    rw [e1]
    exact lookup_store_self _ _ _
  obtain ⟨rl1, h1, hl1⟩ := runOps_keeps_limit env k ops _ _ hk
  have e2 := GetLimiter_of_some env k q2 _ rl1 h1
  refine ⟨by rw [e1], by rw [e1]; rfl, by rw [hk, e1], ?_, by rw [e2]; exact h1,
    by rw [e2]; exact hl1, by rw [e2]⟩
  intro k1 hne
  rw [e1]
  exact lookup_store_ne k k1 _ hne _

/-- Witness of C6: an empty registry, quota 2 then quota 7 for the key, with an
`Allow` on the limiter in between. -/
theorem GetLimiter_first_quota_wins_witness :
    (GetLimiter (Env.plain fun _ => 5) "k" 7
      (runOps (Env.plain fun _ => 5) [RegistryOp.allow "k"]
        (GetLimiter (Env.plain fun _ => 5) "k" 2 World.start).2)).1.limit = 2 :=
  (GetLimiter_first_quota_wins (Env.plain fun _ => 5) World.start "k" 2 7
    [RegistryOp.allow "k"] (by decide)).2.2.2.2.2.1

/-! ## Key selection -/

theorem store_of_lookup {β : Type} (k : String) (v : β) :
    ∀ m : List (String × β), lookup k m = some v → store k v m = m := by
  intro m
  induction m with
  | nil => intro h; simp [lookup] at h
  | cons p m ih =>
    obtain ⟨k1, v1⟩ := p
    intro h
    by_cases e : k1 = k
    · simp only [lookup, if_pos e, Option.some.injEq] at h
      simp [store, e, h]
    · simp only [lookup, if_neg e] at h
      simp [store, e, ih h]

theorem IsLimited_of_not_elapsed (rl : RateLimiter) (now : Int)
    (h : Sub now rl.lastReset < rl.window) :
    rl.IsLimited now = (decide (rl.requests ≥ rl.limit), rl) := by
  have h' : ¬ Sub now rl.lastReset ≥ rl.window := by omega
  simp only [RateLimiter.IsLimited, if_neg h']

/-- One scan over a pool of one key whose limiter is exhausted and whose
window has not elapsed: a single clock reading, nothing found, nothing else
changed. -/
theorem scanKeys_one_exhausted (env : Env) (w : World) (k : String) (q : Int)
    (rl : RateLimiter) (hrl : lookup k w.limiters = some rl) (hex : rl.requests ≥ rl.limit)
    (hwin : Sub (env.clk w.tick) rl.lastReset < rl.window) :
    scanKeys env [(k, q)] w =
      (none, { tick := w.tick + 1, ranges := w.ranges,
               trace := w.trace ++ [Event.now (env.clk w.tick)],
               limiters := w.limiters, clients := w.clients, proxyIndex := w.proxyIndex }) := by
  simp only [scanKeys, hrl, timeNow, IsLimited_of_not_elapsed rl _ hwin, hex, decide_True,
    Bool.not_true, store_of_lookup k rl w.limiters hrl]
  rfl

/-- One call of `GetAvailableKey` on a pool of one key whose limiter is
exhausted, when the window does not elapse before the second scan. -/
theorem GetAvailableKey_one_exhausted (env : Env) (w : World) (k : String) (q : Int)
    (rl : RateLimiter) (hsh : ∀ n, (env.shuffle n [(k, q)]).Perm [(k, q)])
    (hrl : lookup k w.limiters = some rl) (hex : rl.requests ≥ rl.limit)
    (hwin0 : Sub (env.clk w.tick) rl.lastReset < rl.window)
    (hwin1 : Sub (env.clk (w.tick + 1)) rl.lastReset < rl.window) :
    GetAvailableKey env [(k, q)] w =
      (("", 0),
       { tick := w.tick + 2, ranges := w.ranges + 2,
         trace := w.trace ++ [Event.now (env.clk w.tick), Event.sleep (50 * Millisecond),
           Event.now (env.clk (w.tick + 1))],
         limiters := w.limiters, clients := w.clients, proxyIndex := w.proxyIndex }) := by
  have e0 : ∀ v, (rangeKeys env [(k, q)] v).1 = [(k, q)] :=
    fun v => List.perm_singleton.mp (hsh v.ranges)
  have s1 := scanKeys_one_exhausted env (rangeKeys env [(k, q)] w).2 k q rl hrl hex hwin0
  unfold GetAvailableKey
  dsimp only
  rw [e0, s1]
  dsimp only
  have s2 := scanKeys_one_exhausted env
    (rangeKeys env [(k, q)] (timeSleep (50 * Millisecond)
      { tick := (rangeKeys env [(k, q)] w).2.tick + 1, ranges := (rangeKeys env [(k, q)] w).2.ranges,
        trace := (rangeKeys env [(k, q)] w).2.trace ++ [Event.now (env.clk (rangeKeys env [(k, q)] w).2.tick)],
        limiters := (rangeKeys env [(k, q)] w).2.limiters,
        clients := (rangeKeys env [(k, q)] w).2.clients,
        proxyIndex := (rangeKeys env [(k, q)] w).2.proxyIndex })).2 k q rl hrl hex hwin1
  rw [e0, s2]
  simp [rangeKeys, timeSleep]

/-- A failed attempt followed by the delay, on a pool of one key whose
limiter is exhausted. -/
theorem attemptThenDelay_one_exhausted (env : Env) (c : Client) (w : World) (k : String)
    (q : Int) (rl : RateLimiter) (hpool : c.apiKeys = [(k, q)])
    (hsh : ∀ n, (env.shuffle n [(k, q)]).Perm [(k, q)])
    (hrl : lookup k w.limiters = some rl) (hex : rl.requests ≥ rl.limit)
    (hwin0 : Sub (env.clk w.tick) rl.lastReset < rl.window)
    (hwin1 : Sub (env.clk (w.tick + 1)) rl.lastReset < rl.window) :
    (GetAvailableKey env c.apiKeys w).1 = ("", 0) ∧
      attemptThenDelay env c w =
        { tick := w.tick + 2, ranges := w.ranges + 2,
          trace := w.trace ++ [Event.now (env.clk w.tick), Event.sleep (50 * Millisecond),
            Event.now (env.clk (w.tick + 1)), Event.sleep (100 * Millisecond)],
          limiters := w.limiters, clients := w.clients, proxyIndex := w.proxyIndex } := by
  have g := GetAvailableKey_one_exhausted env w k q rl hsh hrl hex hwin0 hwin1
  unfold attemptThenDelay
  rw [hpool, g]
  simp [timeSleep]

theorem getNextAPIKeyLoop_failed (env : Env) (c : Client) (n : Nat) (w : World)
    (h : (GetAvailableKey env c.apiKeys w).1 = ("", 0)) :
    getNextAPIKeyLoop env c (n + 1) w = getNextAPIKeyLoop env c n (attemptThenDelay env c w) := by
  have h1 : (GetAvailableKey env c.apiKeys w).1.1 = "" := by rw [h]
  simp only [getNextAPIKeyLoop, h1, ne_eq, not_true_eq_false, if_false, attemptThenDelay]

/-- The run of `getNextAPIKey` on a pool of one key whose limiter is exhausted
and whose window has not elapsed at any of the six probes. -/
theorem getNextAPIKey_exhausted_run (env : Env) (c : Client) (w : World) (k : String)
    (q : Int) (rl : RateLimiter) (hpool : c.apiKeys = [(k, q)])
    (hsh : ∀ n, (env.shuffle n [(k, q)]).Perm [(k, q)])
    (hrl : lookup k w.limiters = some rl) (hex : rl.requests ≥ rl.limit)
    (hwin : ∀ i, i < 6 → Sub (env.clk (w.tick + i)) rl.lastReset < rl.window) :
    getNextAPIKey env c w =
      (("", 0, some "all API keys are currently rate limited"),
        attemptThenDelay env c (attemptThenDelay env c (attemptThenDelay env c w))) := by
  have h0 := hwin 0 (by decide)
  have h1 := hwin 1 (by decide)
  have h2 := hwin 2 (by decide)
  have h3 := hwin 3 (by decide)
  have h4 := hwin 4 (by decide)
  have h5 := hwin 5 (by decide)
  obtain ⟨g1, a1⟩ := attemptThenDelay_one_exhausted env c w k q rl hpool hsh hrl hex h0 h1
  obtain ⟨g2, a2⟩ := attemptThenDelay_one_exhausted env c (attemptThenDelay env c w) k q rl
    hpool hsh (by rw [a1]; exact hrl) hex (by rw [a1]; exact h2) (by rw [a1]; exact h3)
  obtain ⟨g3, _⟩ := attemptThenDelay_one_exhausted env c
    (attemptThenDelay env c (attemptThenDelay env c w)) k q rl
    hpool hsh (by rw [a2, a1]; exact hrl) hex (by rw [a2, a1]; exact h4)
    (by rw [a2, a1]; exact h5)
  unfold getNextAPIKey
  rw [getNextAPIKeyLoop_failed env c 2 w g1, getNextAPIKeyLoop_failed env c 1 _ g2,
    getNextAPIKeyLoop_failed env c 0 _ g3]
  rfl

/-- C2. With a pool of exactly one key whose limiter is in the registry and
exhausted, and whose window has not elapsed at any of the six probes of the
call, `getNextAPIKey` makes three selection attempts that all fail, each
followed by the fixed delay of 100 ms, and returns the empty key, quota 0 and
the error "all API keys are currently rate limited"; the registry, hence the
count of the limiter, is unchanged. -/
theorem getNextAPIKey_one_exhausted_key (env : Env) (c : Client) (w : World) (k : String)
    (q : Int) (rl : RateLimiter) (hpool : c.apiKeys = [(k, q)])
    (hsh : ∀ n, (env.shuffle n c.apiKeys).Perm c.apiKeys)
    (hrl : lookup k w.limiters = some rl) (hex : rl.requests ≥ rl.limit)
    (hwin : ∀ i, i < 6 → Sub (env.clk (w.tick + i)) rl.lastReset < rl.window) :
    (getNextAPIKey env c w).1 = ("", 0, some "all API keys are currently rate limited") ∧
      (GetAvailableKey env c.apiKeys w).1 = ("", 0) ∧
      (GetAvailableKey env c.apiKeys (attemptThenDelay env c w)).1 = ("", 0) ∧
      (GetAvailableKey env c.apiKeys
        (attemptThenDelay env c (attemptThenDelay env c w))).1 = ("", 0) ∧
      (getNextAPIKey env c w).2 =
        attemptThenDelay env c (attemptThenDelay env c (attemptThenDelay env c w)) ∧
      (getNextAPIKey env c w).2.limiters = w.limiters ∧
      lookup k (getNextAPIKey env c w).2.limiters = some rl ∧
      (getNextAPIKey env c w).2.trace = w.trace ++
        [Event.now (env.clk w.tick), Event.sleep (50 * Millisecond),
         Event.now (env.clk (w.tick + 1)), Event.sleep (100 * Millisecond),
         Event.now (env.clk (w.tick + 2)), Event.sleep (50 * Millisecond),
         Event.now (env.clk (w.tick + 3)), Event.sleep (100 * Millisecond),
         Event.now (env.clk (w.tick + 4)), Event.sleep (50 * Millisecond),
         Event.now (env.clk (w.tick + 5)), Event.sleep (100 * Millisecond)] := by
  rw [hpool] at hsh
  have h0 := hwin 0 (by decide)
  have h1 := hwin 1 (by decide)
  have h2 := hwin 2 (by decide)
  have h3 := hwin 3 (by decide)
  have h4 := hwin 4 (by decide)
  have h5 := hwin 5 (by decide)
  obtain ⟨g1, a1⟩ := attemptThenDelay_one_exhausted env c w k q rl hpool hsh hrl hex h0 h1
  obtain ⟨g2, a2⟩ := attemptThenDelay_one_exhausted env c (attemptThenDelay env c w) k q rl
    hpool hsh (by rw [a1]; exact hrl) hex (by rw [a1]; exact h2) (by rw [a1]; exact h3)
  obtain ⟨g3, a3⟩ := attemptThenDelay_one_exhausted env c
    (attemptThenDelay env c (attemptThenDelay env c w)) k q rl
    hpool hsh (by rw [a2, a1]; exact hrl) hex (by rw [a2, a1]; exact h4)
    (by rw [a2, a1]; exact h5)
  have hrun := getNextAPIKey_exhausted_run env c w k q rl hpool hsh hrl hex hwin
  refine ⟨by rw [hrun], g1, g2, g3, by rw [hrun], ?_, ?_, ?_⟩
  · rw [hrun, a3, a2, a1]
  · rw [hrun, a3, a2, a1]
    exact hrl
  · rw [hrun, a3, a2, a1]
    simp

/-- Witness of C2: the key "k" of quota 1, used once at time 0, and a clock
that stays at 0. -/
theorem getNextAPIKey_one_exhausted_key_witness :
    (getNextAPIKey (Env.plain fun _ => 0)
      { config := { Domain := "d", Key := "X-Api-Key", Values := [[("k", 1)]],
                    DirectAccess := true, DirectAccessTPS := 5, ProxyTPS := 0, Proxies := [] },
        apiKeys := [("k", 1)] }
      { World.start with limiters := [("k", { limit := 1, window := Second, requests := 1,
                                              lastReset := 0 })] }).1 =
      ("", 0, some "all API keys are currently rate limited") :=
  (getNextAPIKey_one_exhausted_key (Env.plain fun _ => 0)
    { config := { Domain := "d", Key := "X-Api-Key", Values := [[("k", 1)]],
                  DirectAccess := true, DirectAccessTPS := 5, ProxyTPS := 0, Proxies := [] },
      apiKeys := [("k", 1)] }
    { World.start with limiters := [("k", { limit := 1, window := Second, requests := 1,
                                            lastReset := 0 })] }
    "k" 1 { limit := 1, window := Second, requests := 1, lastReset := 0 } rfl
    (fun _ => List.Perm.refl _) (by decide) (by decide)
    (fun _ _ => (by decide : Sub 0 0 < Second))).1

/-! ## A selected key passes the consuming check -/

theorem Allow_true_of_room (rl : RateLimiter) (now : Int) (h : rl.requests < rl.limit)
    (hpos : 0 < rl.limit) : (rl.Allow now).1 = true := by
  unfold RateLimiter.Allow
  by_cases he : Sub now rl.lastReset ≥ rl.window
  · have : ¬ (0 : Int) ≥ rl.limit := by omega
    simp [he, this]
  · have : ¬ rl.requests ≥ rl.limit := by omega
    simp [he, this]

theorem room_of_IsLimited_false (rl : RateLimiter) (now : Int)
    (h : (rl.IsLimited now).1 = false) (hpos : 0 < rl.limit) :
    (rl.IsLimited now).2.requests < (rl.IsLimited now).2.limit := by
  unfold RateLimiter.IsLimited at h ⊢
  by_cases he : Sub now rl.lastReset ≥ rl.window
  · simp only [he, if_true]
    exact hpos
  · simp only [he, if_false] at h ⊢
    simpa using h

/-- One scan over keys of the pool keeps every quota in the registry positive,
and a key it returns either has no limiter yet or has room left in a limiter
of positive quota. -/
theorem scanKeys_selected (env : Env) (pool : List (String × Int)) :
    ∀ (ks : List (String × Int)) (w : World), (∀ p ∈ ks, p ∈ pool) →
      (∀ p ∈ pool, ∀ rl, lookup p.1 w.limiters = some rl → 0 < rl.limit) →
      (∀ p ∈ pool, ∀ rl, lookup p.1 (scanKeys env ks w).2.limiters = some rl → 0 < rl.limit) ∧
        ∀ key limit, (scanKeys env ks w).1 = some (key, limit) →
          (key, limit) ∈ pool ∧
            ∀ rl, lookup key (scanKeys env ks w).2.limiters = some rl →
              rl.requests < rl.limit ∧ 0 < rl.limit := by
  intro ks
  induction ks with
  | nil =>
    intro w _ hinv
    exact ⟨hinv, fun key limit h => by simp [scanKeys] at h⟩
  | cons p ks ih =>
    obtain ⟨key, limit⟩ := p
    intro w hsub hinv
    have hmem : (key, limit) ∈ pool := hsub _ (List.mem_cons_self _ _)
    have hsub' : ∀ p ∈ ks, p ∈ pool := fun p hp => hsub p (List.mem_cons_of_mem _ hp)
    cases hl : lookup key w.limiters with
    | none =>
      have e : scanKeys env ((key, limit) :: ks) w = (some (key, limit), w) := by
        simp only [scanKeys, hl]
      rw [e]
      refine ⟨hinv, ?_⟩
      intro key1 limit1 h
      simp only [Option.some.injEq, Prod.mk.injEq] at h
      obtain ⟨rfl, rfl⟩ := h
      refine ⟨hmem, ?_⟩
      intro rl hrl
      simp only at hrl
      rw [hl] at hrl
      cases hrl
    | some limiter =>
      have hlpos : 0 < limiter.limit := hinv _ hmem limiter hl
      have hinv1 : ∀ p ∈ pool, ∀ rl,
          lookup p.1 (store key (limiter.IsLimited (env.clk w.tick)).2 w.limiters) = some rl →
            0 < rl.limit := by
        intro p hp rl hrl
        by_cases e : p.1 = key
        · rw [e, lookup_store_self] at hrl
          cases hrl
          rw [IsLimited_limit]
          exact hlpos
        · rw [lookup_store_ne key p.1 _ e] at hrl
          exact hinv p hp rl hrl
      by_cases hlim : (limiter.IsLimited (env.clk w.tick)).1 = true
      · have e : scanKeys env ((key, limit) :: ks) w =
            scanKeys env ks
              { tick := w.tick + 1, ranges := w.ranges,
                trace := w.trace ++ [Event.now (env.clk w.tick)],
                limiters := store key (limiter.IsLimited (env.clk w.tick)).2 w.limiters,
                clients := w.clients, proxyIndex := w.proxyIndex } := by
          simp only [scanKeys, hl, timeNow, hlim, Bool.not_true, Bool.false_eq_true, if_false]
        rw [e]
        exact ih _ hsub' hinv1
      · have hlim' : (limiter.IsLimited (env.clk w.tick)).1 = false := by
          simpa using hlim
        have e : scanKeys env ((key, limit) :: ks) w =
            (some (key, limit),
              { tick := w.tick + 1, ranges := w.ranges,
                trace := w.trace ++ [Event.now (env.clk w.tick)],
                limiters := store key (limiter.IsLimited (env.clk w.tick)).2 w.limiters,
                clients := w.clients, proxyIndex := w.proxyIndex }) := by
          simp only [scanKeys, hl, timeNow, hlim', Bool.not_false, if_true]
        rw [e]
        refine ⟨hinv1, ?_⟩
        intro key1 limit1 h
        simp only [Option.some.injEq, Prod.mk.injEq] at h
        obtain ⟨rfl, rfl⟩ := h
        refine ⟨hmem, ?_⟩
        intro rl hrl
        simp only at hrl
        rw [lookup_store_self] at hrl
        cases hrl
        refine ⟨room_of_IsLimited_false limiter _ hlim' hlpos, ?_⟩
        rw [IsLimited_limit]
        exact hlpos

/-- One call of `GetAvailableKey`: the same, for a key returned that is not
the empty string. -/
theorem GetAvailableKey_selected (env : Env) (pool : List (String × Int))
    (hsh : ∀ n, ∀ p ∈ env.shuffle n pool, p ∈ pool) (w : World)
    (hinv : ∀ p ∈ pool, ∀ rl, lookup p.1 w.limiters = some rl → 0 < rl.limit) :
    (∀ p ∈ pool, ∀ rl,
        lookup p.1 (GetAvailableKey env pool w).2.limiters = some rl → 0 < rl.limit) ∧
      ((GetAvailableKey env pool w).1.1 ≠ "" →
        (GetAvailableKey env pool w).1 ∈ pool ∧
          ∀ rl, lookup (GetAvailableKey env pool w).1.1 (GetAvailableKey env pool w).2.limiters
              = some rl → rl.requests < rl.limit ∧ 0 < rl.limit) := by
  have s1 := scanKeys_selected env pool (rangeKeys env pool w).1 (rangeKeys env pool w).2
    (hsh _) hinv
  unfold GetAvailableKey
  dsimp only
  cases h1 : scanKeys env (rangeKeys env pool w).1 (rangeKeys env pool w).2 with
  | mk r1 w1 =>
    rw [h1] at s1
    cases r1 with
    | some kl =>
      obtain ⟨key, limit⟩ := kl
      dsimp only
      exact ⟨s1.1, fun _ => s1.2 key limit rfl⟩
    | none =>
      dsimp only
      have s2 := scanKeys_selected env pool
        (rangeKeys env pool (timeSleep (50 * Millisecond) w1)).1
        (rangeKeys env pool (timeSleep (50 * Millisecond) w1)).2 (hsh _) s1.1
      cases h2 : scanKeys env (rangeKeys env pool (timeSleep (50 * Millisecond) w1)).1
          (rangeKeys env pool (timeSleep (50 * Millisecond) w1)).2 with
      | mk r2 w3 =>
        rw [h2] at s2
        cases r2 with
        | some kl =>
          obtain ⟨key, limit⟩ := kl
          dsimp only
          exact ⟨s2.1, fun _ => s2.2 key limit rfl⟩
        | none =>
          dsimp only
          exact ⟨s2.1, fun h => absurd rfl h⟩

/-- The loop of `getNextAPIKey`: a key returned without error is in the pool
with its quota and either has no limiter yet or has room left in a limiter
of positive quota. -/
theorem getNextAPIKeyLoop_selected (env : Env) (c : Client)
    (hsh : ∀ n, ∀ p ∈ env.shuffle n c.apiKeys, p ∈ c.apiKeys) :
    ∀ (n : Nat) (w : World),
      (∀ p ∈ c.apiKeys, ∀ rl, lookup p.1 w.limiters = some rl → 0 < rl.limit) →
      (getNextAPIKeyLoop env c n w).1.2.2 = none →
      ((getNextAPIKeyLoop env c n w).1.1, (getNextAPIKeyLoop env c n w).1.2.1) ∈ c.apiKeys ∧
        ∀ rl, lookup (getNextAPIKeyLoop env c n w).1.1 (getNextAPIKeyLoop env c n w).2.limiters
            = some rl → rl.requests < rl.limit ∧ 0 < rl.limit := by
  intro n
  induction n with
  | zero =>
    intro w _ h
    simp [getNextAPIKeyLoop] at h
  | succ n ih =>
    intro w hinv h
    have g := GetAvailableKey_selected env c.apiKeys hsh w hinv
    by_cases hk : (GetAvailableKey env c.apiKeys w).1.1 = ""
    · have e : getNextAPIKeyLoop env c (n + 1) w =
          getNextAPIKeyLoop env c n
            (timeSleep (100 * Millisecond) (GetAvailableKey env c.apiKeys w).2) := by
        simp only [getNextAPIKeyLoop, hk, ne_eq, not_true_eq_false, if_false]
      rw [e] at h ⊢
      exact ih _ g.1 h
    · have e : getNextAPIKeyLoop env c (n + 1) w =
          (((GetAvailableKey env c.apiKeys w).1.1, (GetAvailableKey env c.apiKeys w).1.2, none),
            (GetAvailableKey env c.apiKeys w).2) := by
        simp only [getNextAPIKeyLoop, hk, ne_eq, not_false_eq_true, if_true]
      rw [e]
      exact g.2 hk

/-- Counterexample to C10 as stated: with the pool holding the key "k" of
quota 0 and an empty registry, `getNextAPIKey` returns "k" and 0 without
error, and `GetLimiter("k", 0).Allow()` then returns false, so the handler
answers 429 from its second branch. -/
theorem zero_quota_key_is_selected_then_denied :
    (getNextAPIKey (Env.plain fun _ => 0)
        { config := { Domain := "d", Key := "X-Api-Key", Values := [[("k", 0)]],
                      DirectAccess := true, DirectAccessTPS := 5, ProxyTPS := 0, Proxies := [] },
          apiKeys := [("k", 0)] } World.start).1 = ("k", 0, none) ∧
      ((GetLimiter (Env.plain fun _ => 0) "k" 0 World.start).1.Allow 0).1 = false ∧
      (ProxyHandler (Env.plain fun _ => 0)
        { config := { Domain := "d", Key := "X-Api-Key", Values := [[("k", 0)]],
                      DirectAccess := true, DirectAccessTPS := 5, ProxyTPS := 0, Proxies := [] },
          apiKeys := [("k", 0)] }
        { Method := "GET", Path := "/", RawQuery := "", Header := [] } World.start).map
          Prod.fst = some 429 := by
  decide

/-- C10, amended. When every quota of the pool is positive and every key of
the pool that has a limiter has it with the quota of the pool, a key and
quota that `getNextAPIKey` returns without error pass the consuming check
that `ProxyHandler` makes next: `GetLimiter(key, quota).Allow()` returns
true, whatever the clock shows. -/
theorem selected_key_is_allowed (env : Env) (c : Client) (w : World)
    (hsh : ∀ n, (env.shuffle n c.apiKeys).Perm c.apiKeys)
    (hpos : ∀ p ∈ c.apiKeys, 0 < p.2)
    (hreg : ∀ p ∈ c.apiKeys, ∀ rl, lookup p.1 w.limiters = some rl → rl.limit = p.2)
    (hok : (getNextAPIKey env c w).1.2.2 = none) :
    ((GetLimiter env (getNextAPIKey env c w).1.1 (getNextAPIKey env c w).1.2.1
        (getNextAPIKey env c w).2).1.Allow
      (timeNow env (GetLimiter env (getNextAPIKey env c w).1.1 (getNextAPIKey env c w).1.2.1
        (getNextAPIKey env c w).2).2).1).1 = true := by
  have hsh' : ∀ n, ∀ p ∈ env.shuffle n c.apiKeys, p ∈ c.apiKeys :=
    fun n p hp => (hsh n).subset hp
  have hinv : ∀ p ∈ c.apiKeys, ∀ rl, lookup p.1 w.limiters = some rl → 0 < rl.limit := by
    intro p hp rl hrl
    rw [hreg p hp rl hrl]
    exact hpos p hp
  obtain ⟨hmem, hroom⟩ := getNextAPIKeyLoop_selected env c hsh' 3 w hinv hok
  have hq : 0 < (getNextAPIKey env c w).1.2.1 := hpos _ hmem
  cases hl : lookup (getNextAPIKey env c w).1.1 (getNextAPIKey env c w).2.limiters with
  | none =>
    rw [GetLimiter_of_none env _ _ _ hl]
    exact Allow_true_of_room _ _ hq hq
  | some rl =>
    rw [GetLimiter_of_some env _ _ _ rl hl]
    obtain ⟨h1, h2⟩ := hroom rl hl
    exact Allow_true_of_room _ _ h1 h2

/-- Witness of C10: the key "k" of quota 1 and an empty registry. -/
theorem selected_key_is_allowed_witness :
    ((GetLimiter (Env.plain fun _ => 0) "k" 1 World.start).1.Allow 0).1 = true :=
  selected_key_is_allowed (Env.plain fun _ => 0)
    { config := { Domain := "d", Key := "X-Api-Key", Values := [[("k", 1)]],
                  DirectAccess := true, DirectAccessTPS := 5, ProxyTPS := 0, Proxies := [] },
      apiKeys := [("k", 1)] } World.start (fun _ => List.Perm.refl _)
    (by decide) (by decide) (by decide)

/-! ## Outbound-path selection -/

theorem wrap32_of_lt (x : Int) (h0 : 0 ≤ x) (h1 : x < 2147483648) : wrap32 x = x := by
  unfold wrap32
  omega

/-- The world after `getNextClient` selected the path at index `j`, whose
wrapper was `cw`, on the first iteration of its loop. -/
theorem scanClients_first (env : Env) (startIdx : Int) (i n j : Nat) (w : World)
    (cw : ClientWrapper)
    (hidx : Int.tmod (startIdx + (i : Int)) (w.clients.length : Int) = (j : Int))
    (hj : (j : Int) < 2147483648)
    (hget : w.clients[j]? = some cw)
    (hallow : ∀ rl, cw.RateLimiter = some rl → (rl.Allow (env.clk w.tick)).1 = true) :
    scanClients env startIdx i (n + 1) w =
      some (some j,
        match cw.RateLimiter with
        | none => { w with proxyIndex := (j : Int) }
        | some rl =>
          { tick := w.tick + 1, ranges := w.ranges,
            trace := w.trace ++ [Event.now (env.clk w.tick)],
            limiters := w.limiters,
            clients := w.clients.set j { cw with RateLimiter := some (rl.Allow (env.clk w.tick)).2 },
            proxyIndex := (j : Int) }) := by
  have hnn : ¬ ((j : Int) < 0) := by omega
  have hw : wrap32 (j : Int) = (j : Int) := wrap32_of_lt _ (by omega) hj
  cases hrl : cw.RateLimiter with
  | none =>
    simp only [scanClients, hidx, hnn, if_false, Int.toNat_ofNat, hget, hrl, hw]
  | some rl =>
    have ha := hallow rl hrl
    simp only [scanClients, hidx, hnn, if_false, Int.toNat_ofNat, hget, hrl, hw, timeNow, ha,
      if_true]

/-- One call of `getNextClient` when the cursor is not negative and the path
at the cursor allows: that path is returned and the cursor is set to its
index. -/
theorem getNextClient_at_cursor (env : Env) (w : World) (cw : ClientWrapper) (j : Nat)
    (hcur : 0 ≤ w.proxyIndex)
    (hj : (j : Int) = w.proxyIndex % (w.clients.length : Int))
    (hlen : (w.clients.length : Int) ≤ 2147483648)
    (hget : w.clients[j]? = some cw)
    (hallow : ∀ rl, cw.RateLimiter = some rl → (rl.Allow (env.clk w.tick)).1 = true) :
    getNextClient env w =
      some (j,
        match cw.RateLimiter with
        | none => { w with proxyIndex := (j : Int) }
        | some rl =>
          { tick := w.tick + 1, ranges := w.ranges,
            trace := w.trace ++ [Event.now (env.clk w.tick)],
            limiters := w.limiters,
            clients := w.clients.set j { cw with RateLimiter := some (rl.Allow (env.clk w.tick)).2 },
            proxyIndex := (j : Int) }) := by
  have hjlt : j < w.clients.length := by
    by_contra hc
    rw [List.getElem?_eq_none (by omega)] at hget
    cases hget
  obtain ⟨m, hm⟩ : ∃ m, w.clients.length = m + 1 := ⟨w.clients.length - 1, by omega⟩
  have hidx : Int.tmod (w.proxyIndex + ((0 : Nat) : Int)) (w.clients.length : Int) = (j : Int) := by
    rw [hj]
    simp only [Nat.cast_zero, add_zero]
    exact Int.tmod_eq_emod hcur (by omega)
  have hs := scanClients_first env w.proxyIndex 0 m j w cw hidx (by omega) hget hallow
  unfold getNextClient
  rw [hm, hs]

theorem Allow_with_room (rl : RateLimiter) (now : Int) (n : Nat) (h0 : 0 ≤ rl.requests)
    (h1 : rl.requests + ((n + 1 : Nat) : Int) ≤ rl.limit) :
    (rl.Allow now).1 = true ∧ 0 ≤ (rl.Allow now).2.requests ∧
      (rl.Allow now).2.requests + (n : Int) ≤ (rl.Allow now).2.limit := by
  push_cast at h1
  unfold RateLimiter.Allow
  by_cases he : Sub now rl.lastReset ≥ rl.window
  · have : ¬ (0 : Int) ≥ rl.limit := by omega
    simp only [he, if_true, this, if_false, true_and]
    omega
  · have : ¬ rl.requests ≥ rl.limit := by omega
    simp only [he, if_false, this, true_and]
    omega

/-- Consecutive calls of `getNextClient` while the cursor is not negative and
every limiter of the pool has room for all of them: every call returns the
path at the cursor. -/
theorem selectPaths_at_cursor (env : Env) :
    ∀ (n : Nat) (w : World), w.clients ≠ [] → 0 ≤ w.proxyIndex →
      (w.clients.length : Int) ≤ 2147483648 →
      (∀ cw ∈ w.clients, ∀ rl, cw.RateLimiter = some rl →
        0 ≤ rl.requests ∧ rl.requests + (n : Int) ≤ rl.limit) →
      ∃ w1, selectPaths env n w =
          some (List.replicate n (w.proxyIndex % (w.clients.length : Int)).toNat, w1) ∧
        w1.clients.length = w.clients.length ∧
        (0 < n → w1.proxyIndex = w.proxyIndex % (w.clients.length : Int)) := by
  intro n
  induction n with
  | zero =>
    intro w _ _ _ _
    exact ⟨w, by simp [selectPaths], rfl, fun h => absurd h (by decide)⟩
  | succ n ih =>
    intro w hne hcur hlen hroom
    have hpos : 0 < w.clients.length := List.length_pos.mpr hne
    have hm0 := Int.emod_nonneg w.proxyIndex (by omega : (w.clients.length : Int) ≠ 0)
    have hm1 := Int.emod_lt_of_pos w.proxyIndex (by omega : (0 : Int) < w.clients.length)
    obtain ⟨j, hj⟩ : ∃ j : Nat, (j : Int) = w.proxyIndex % (w.clients.length : Int) :=
      ⟨(w.proxyIndex % (w.clients.length : Int)).toNat, by omega⟩
    have hjlt : j < w.clients.length := by omega
    have hget : w.clients[j]? = some w.clients[j] := List.getElem?_eq_getElem hjlt
    have hmem : w.clients[j] ∈ w.clients := List.getElem_mem hjlt
    have hallow : ∀ rl, w.clients[j].RateLimiter = some rl →
        (rl.Allow (env.clk w.tick)).1 = true := fun rl hrl =>
      (Allow_with_room rl _ n (hroom _ hmem rl hrl).1 (hroom _ hmem rl hrl).2).1
    have hcall := getNextClient_at_cursor env w w.clients[j] j hcur hj hlen hget hallow
    have hjj : (j : Int) % (w.clients.length : Int) = (j : Int) :=
      Int.emod_eq_of_lt (by omega) (by omega)
    rw [← hj]
    simp only [Int.toNat_ofNat]
    have hroom' : ∀ cw ∈ w.clients, ∀ rl, cw.RateLimiter = some rl →
        0 ≤ rl.requests ∧ rl.requests + (n : Int) ≤ rl.limit := by
      intro cw hcw rl hrl
      have := hroom cw hcw rl hrl
      push_cast at this
      omega
    cases hrl : w.clients[j].RateLimiter with
    | none =>
      rw [hrl] at hcall
      obtain ⟨w1, h1, h2, h3⟩ := ih { w with proxyIndex := (j : Int) } hne
        (by simp only; omega) hlen hroom'
      refine ⟨w1, ?_, h2, fun _ => ?_⟩
      · simp only [selectPaths, hcall, h1, hjj, Int.toNat_ofNat, List.replicate_succ]
      · rcases Nat.eq_zero_or_pos n with hn | hn
        · subst hn
          simp only [selectPaths, Option.some.injEq, Prod.mk.injEq] at h1
          rw [← h1.2]
        · rw [h3 hn]
          exact hjj
    | some rl =>
      rw [hrl] at hcall
      have hA := Allow_with_room rl (env.clk w.tick) n (hroom _ hmem rl hrl).1
        (hroom _ hmem rl hrl).2
      obtain ⟨w1, h1, h2, h3⟩ := ih
        { tick := w.tick + 1, ranges := w.ranges,
          trace := w.trace ++ [Event.now (env.clk w.tick)],
          limiters := w.limiters,
          clients := w.clients.set j
            { w.clients[j] with RateLimiter := some (rl.Allow (env.clk w.tick)).2 },
          proxyIndex := (j : Int) }
        (by
          simp only [ne_eq]
          intro hc
          have := congrArg List.length hc
          simp only [List.length_set, List.length_nil] at this
          omega)
        (by simp only; omega)
        (by simp only [List.length_set]; exact hlen)
        (by
          intro cw hcw rl1 hrl1
          simp only at hcw
          rcases List.mem_or_eq_of_mem_set hcw with hcw | hcw
          · exact hroom' cw hcw rl1 hrl1
          · rw [hcw] at hrl1
            simp only [Option.some.injEq] at hrl1
            rw [← hrl1]
            exact hA.2)
      simp only [List.length_set] at h1 h2 h3
      refine ⟨w1, ?_, h2, fun _ => ?_⟩
      · simp only [selectPaths, hcall, h1, hjj, Int.toNat_ofNat, List.replicate_succ]
      · rcases Nat.eq_zero_or_pos n with hn | hn
        · subst hn
          simp only [selectPaths, Option.some.injEq, Prod.mk.injEq] at h1
          rw [← h1.2]
        · rw [h3 hn]
          exact hjj

/-- Counterexample to C3 as stated: the pool built by `NewClient` from direct
access and one proxy, both of quota 5, has two paths with room for both calls
and the cursor at 0; two consecutive `getNextClient` calls both return path
0 and path 1 is not visited. -/
theorem two_selections_repeat_first_path :
    (NewClient (Env.plain fun _ => 0)
        { Domain := "d", Key := "X-Api-Key", Values := [[("k", 1)]], DirectAccess := true,
          DirectAccessTPS := 5, ProxyTPS := 5, Proxies := ["http://p"] } World.start).map
        (fun r => (r.2.clients.length, r.2.proxyIndex)) = some (2, 0) ∧
      ((NewClient (Env.plain fun _ => 0)
        { Domain := "d", Key := "X-Api-Key", Values := [[("k", 1)]], DirectAccess := true,
          DirectAccessTPS := 5, ProxyTPS := 5, Proxies := ["http://p"] } World.start).bind
        (fun r => selectPaths (Env.plain fun _ => 0) 2 r.2)).map Prod.fst = some [0, 0] := by
  decide

/-- C3, amended. For every non-empty pool in which every limiter has room for
all the calls and every starting value of the cursor that is not negative,
consecutive `getNextClient` calls all return the same path, the one at index
cursor mod pool size, and leave the cursor at that index: a selection stores
the index it selected, so the paths are pairwise distinct only for one call. -/
theorem consecutive_selections_return_cursor_path (env : Env) (w : World) (n : Nat)
    (hne : w.clients ≠ []) (hcur : 0 ≤ w.proxyIndex)
    (hlen : (w.clients.length : Int) ≤ 2147483648)
    (hroom : ∀ cw ∈ w.clients, ∀ rl, cw.RateLimiter = some rl →
      0 ≤ rl.requests ∧ rl.requests + (n : Int) ≤ rl.limit) :
    ∃ w1, selectPaths env n w =
        some (List.replicate n (w.proxyIndex % (w.clients.length : Int)).toNat, w1) ∧
      (0 < n → w1.proxyIndex = w.proxyIndex % (w.clients.length : Int)) ∧
      ((List.replicate n (w.proxyIndex % (w.clients.length : Int)).toNat).Nodup ↔ n ≤ 1) := by
  obtain ⟨w1, h1, _, h3⟩ := selectPaths_at_cursor env n w hne hcur hlen hroom
  exact ⟨w1, h1, h3, List.nodup_replicate⟩

/-- Witness of C3: three paths of quota 5, cursor at 4, three calls. -/
theorem consecutive_selections_return_cursor_path_witness :
    ∃ w1, selectPaths (Env.plain fun _ => 0) 3
        { World.start with
          clients := [⟨none, some (NewRateLimiter 5 0), true⟩,
                      ⟨some "http://p", some (NewRateLimiter 5 0), false⟩,
                      ⟨some "http://q", some (NewRateLimiter 5 0), false⟩],
          proxyIndex := 4 } = some ([1, 1, 1], w1) := by
  obtain ⟨w1, h1, _⟩ := consecutive_selections_return_cursor_path (Env.plain fun _ => 0)
    { World.start with
      clients := [⟨none, some (NewRateLimiter 5 0), true⟩,
                  ⟨some "http://p", some (NewRateLimiter 5 0), false⟩,
                  ⟨some "http://q", some (NewRateLimiter 5 0), false⟩],
      proxyIndex := 4 } 3 (by decide) (by decide) (by decide) (by decide)
  exact ⟨w1, h1⟩

/-! ## The fallback of `getNextClient` and the 32-bit cursor -/

theorem Allow_zero_quota (rl : RateLimiter) (now : Int) (hl : rl.limit = 0)
    (hr : rl.requests = 0) :
    (rl.Allow now).1 = false ∧ (rl.Allow now).2.limit = 0 ∧ (rl.Allow now).2.requests = 0 := by
  unfold RateLimiter.Allow
  by_cases he : Sub now rl.lastReset ≥ rl.window
  · simp [he, hl]
  · simp [he, hl, hr]

/-- The loop of `getNextClient` on a pool whose limiters all have quota 0:
every path denies, the loop ends without a selection and leaves the cursor
where it was. -/
theorem scanClients_zero_quota (env : Env) (startIdx : Int) (hs : 0 ≤ startIdx) :
    ∀ (n i : Nat) (w : World), w.clients ≠ [] →
      (∀ cw ∈ w.clients, ∃ rl, cw.RateLimiter = some rl ∧ rl.limit = 0 ∧ rl.requests = 0) →
      ∃ w1, scanClients env startIdx i n w = some (none, w1) ∧
        w1.proxyIndex = w.proxyIndex ∧ w1.clients.length = w.clients.length ∧
        (∀ cw ∈ w1.clients, ∃ rl, cw.RateLimiter = some rl ∧ rl.limit = 0 ∧ rl.requests = 0) := by
  intro n
  induction n with
  | zero =>
    intro i w _ hinv
    exact ⟨w, by simp [scanClients], rfl, rfl, hinv⟩
  | succ n ih =>
    intro i w hne hinv
    have hpos : 0 < w.clients.length := List.length_pos.mpr hne
    have hm0 := Int.emod_nonneg (startIdx + (i : Int)) (by omega : (w.clients.length : Int) ≠ 0)
    have hm1 := Int.emod_lt_of_pos (startIdx + (i : Int)) (by omega : (0 : Int) < w.clients.length)
    have ht : Int.tmod (startIdx + (i : Int)) (w.clients.length : Int) =
        (startIdx + (i : Int)) % (w.clients.length : Int) :=
      Int.tmod_eq_emod (by omega) (by omega)
    obtain ⟨j, hj⟩ : ∃ j : Nat, (j : Int) = (startIdx + (i : Int)) % (w.clients.length : Int) :=
      ⟨((startIdx + (i : Int)) % (w.clients.length : Int)).toNat, by omega⟩
    have hjlt : j < w.clients.length := by omega
    have hget : w.clients[j]? = some w.clients[j] := List.getElem?_eq_getElem hjlt
    obtain ⟨rl, hrl, hl, hr⟩ := hinv _ (List.getElem_mem hjlt)
    have hA := Allow_zero_quota rl (env.clk w.tick) hl hr
    have hnn : ¬ ((j : Int) < 0) := by omega
    obtain ⟨w1, h1, h2, h3, h4⟩ := ih (i + 1)
      { tick := w.tick + 1, ranges := w.ranges,
        trace := w.trace ++ [Event.now (env.clk w.tick)],
        limiters := w.limiters,
        clients := w.clients.set j
          { w.clients[j] with RateLimiter := some (rl.Allow (env.clk w.tick)).2 },
        proxyIndex := w.proxyIndex }
      (by
        simp only [ne_eq]
        intro hc
        have := congrArg List.length hc
        simp only [List.length_set, List.length_nil] at this
        omega)
      (by
        intro cw hcw
        simp only at hcw
        rcases List.mem_or_eq_of_mem_set hcw with hcw | hcw
        · exact hinv cw hcw
        · exact ⟨(rl.Allow (env.clk w.tick)).2, by rw [hcw], hA.2.1, hA.2.2⟩)
    simp only [List.length_set] at h1 h3
    refine ⟨w1, ?_, h2, h3, h4⟩
    rw [← h1]
    simp only [scanClients, ht, ← hj, hnn, if_false, Int.toNat_ofNat, hget, hrl, timeNow, hA.1,
      Bool.false_eq_true, Nat.cast_add, Nat.cast_one]

/-- One call of `getNextClient` on a pool whose limiters all have quota 0,
while the cursor can still be advanced without leaving the 32-bit range:
the fallback returns a path of the pool and advances the cursor by one. -/
theorem getNextClient_zero_quota (env : Env) (w : World) (hne : w.clients ≠ [])
    (hcur : 0 ≤ w.proxyIndex) (hmax : w.proxyIndex + 1 < 2147483648)
    (hinv : ∀ cw ∈ w.clients, ∃ rl, cw.RateLimiter = some rl ∧ rl.limit = 0 ∧ rl.requests = 0) :
    ∃ idx w1, getNextClient env w = some (idx, w1) ∧ idx < w.clients.length ∧
      w1.proxyIndex = w.proxyIndex + 1 ∧ w1.clients.length = w.clients.length ∧
      (∀ cw ∈ w1.clients, ∃ rl, cw.RateLimiter = some rl ∧ rl.limit = 0 ∧ rl.requests = 0) := by
  obtain ⟨w1, h1, h2, h3, h4⟩ :=
    scanClients_zero_quota env w.proxyIndex hcur w.clients.length 0 w hne hinv
  have hpos : 0 < w.clients.length := List.length_pos.mpr hne
  have hw : wrap32 (w.proxyIndex + 1) = w.proxyIndex + 1 := wrap32_of_lt _ (by omega) hmax
  have hm0 := Int.emod_nonneg (w.proxyIndex + 1) (by omega : (w.clients.length : Int) ≠ 0)
  have hm1 := Int.emod_lt_of_pos (w.proxyIndex + 1) (by omega : (0 : Int) < w.clients.length)
  have ht : Int.tmod (w.proxyIndex + 1) (w.clients.length : Int) =
      (w.proxyIndex + 1) % (w.clients.length : Int) :=
    Int.tmod_eq_emod (by omega) (by omega)
  refine ⟨((w.proxyIndex + 1) % (w.clients.length : Int)).toNat,
    { timeSleep (50 * Millisecond) w1 with proxyIndex := w.proxyIndex + 1 }, ?_, by omega, rfl,
    h3, h4⟩
  have hlen0 : ¬ w.clients.length = 0 := by omega
  have hnn : ¬ ((w.proxyIndex + 1) % (w.clients.length : Int) < 0) := by omega
  have hlt : ((w.proxyIndex + 1) % (w.clients.length : Int)).toNat < w.clients.length := by omega
  simp only [getNextClient, h1, timeSleep, h2, hw, h3, hlen0, if_false, ht, hnn, hlt, if_true]

/-- On a pool whose limiters all have quota 0, `n` consecutive calls of
`getNextClient` advance the cursor by `n`, as long as it stays in the 32-bit
range. -/
theorem selectPaths_zero_quota (env : Env) :
    ∀ (n : Nat) (w : World), w.clients ≠ [] → 0 ≤ w.proxyIndex →
      w.proxyIndex + (n : Int) < 2147483648 →
      (∀ cw ∈ w.clients, ∃ rl, cw.RateLimiter = some rl ∧ rl.limit = 0 ∧ rl.requests = 0) →
      ∃ paths w1, selectPaths env n w = some (paths, w1) ∧
        w1.proxyIndex = w.proxyIndex + (n : Int) ∧ w1.clients.length = w.clients.length ∧
        (∀ cw ∈ w1.clients, ∃ rl, cw.RateLimiter = some rl ∧ rl.limit = 0 ∧ rl.requests = 0) := by
  intro n
  induction n with
  | zero =>
    intro w _ _ _ hinv
    exact ⟨[], w, by simp [selectPaths], by simp, rfl, hinv⟩
  | succ n ih =>
    intro w hne hcur hmax hinv
    push_cast at hmax
    obtain ⟨idx, w1, h1, _, h2, h3, h4⟩ :=
      getNextClient_zero_quota env w hne hcur (by omega) hinv
    have hne1 : w1.clients ≠ [] := by
      intro hc
      rw [hc] at h3
      exact hne (List.length_eq_zero.mp h3.symm)
    obtain ⟨paths, w2, g1, g2, g3, g4⟩ := ih w1 hne1 (by omega) (by omega) h4
    refine ⟨idx :: paths, w2, ?_, ?_, by omega, g4⟩
    · simp only [selectPaths, h1, g1]
    · push_cast
      omega

/-- On a pool of three paths whose limiters all have quota 0, with the cursor
at the largest 32-bit value, `getNextClient` panics: advancing the cursor
wraps it to -2147483648 and the remainder by 3 is -2. -/
theorem getNextClient_panics_at_max (env : Env) (w : World) (hlen : w.clients.length = 3)
    (hcur : w.proxyIndex = 2147483647)
    (hinv : ∀ cw ∈ w.clients, ∃ rl, cw.RateLimiter = some rl ∧ rl.limit = 0 ∧ rl.requests = 0) :
    getNextClient env w = none := by
  have hne : w.clients ≠ [] := by
    intro hc
    rw [hc] at hlen
    cases hlen
  obtain ⟨w1, h1, h2, h3, _⟩ :=
    scanClients_zero_quota env w.proxyIndex (by omega) w.clients.length 0 w hne hinv
  have hw : wrap32 (2147483647 + 1) = -2147483648 := by decide
  have ht : Int.tmod (-2147483648) ((3 : Nat) : Int) = -2 := by decide
  unfold getNextClient
  rw [h1]
  simp only [timeSleep, h2, hcur, hw, h3, hlen, ht]
  simp

/-- C4, the defect at work. With three proxies and `PROXY_TPS` 0, a
configuration that `LoadConfig` accepts, every call of `getNextClient` takes
the fallback and advances the cursor by one: 2147483647 calls after
`NewClient` the cursor is 2147483647, and the next call panics (index out of
range) instead of returning a path. -/
theorem getNextClient_panics_after_cursor_wraps (clk : Nat → Int) :
    ∃ c w0 paths w1,
      NewClient (Env.plain clk)
        { Domain := "d", Key := "X-Api-Key", Values := [[("k", 1)]], DirectAccess := false,
          DirectAccessTPS := 0, ProxyTPS := 0,
          Proxies := ["http://p1", "http://p2", "http://p3"] } World.start = some (c, w0) ∧
      selectPaths (Env.plain clk) 2147483647 w0 = some (paths, w1) ∧
      w1.clients.length = 3 ∧ w1.proxyIndex = 2147483647 ∧
      getNextClient (Env.plain clk) w1 = none := by
  have hinv0 : ∀ cw ∈
      [(⟨some "http://p1", some (NewRateLimiter 0 (clk 0)), false⟩ : ClientWrapper),
        ⟨some "http://p2", some (NewRateLimiter 0 (clk 1)), false⟩,
        ⟨some "http://p3", some (NewRateLimiter 0 (clk 2)), false⟩],
      ∃ rl, cw.RateLimiter = some rl ∧ rl.limit = 0 ∧ rl.requests = 0 := by
    intro cw hcw
    simp only [List.mem_cons, List.mem_singleton, List.not_mem_nil, or_false] at hcw
    rcases hcw with rfl | rfl | rfl <;> exact ⟨_, rfl, rfl, rfl⟩
  obtain ⟨paths, w1, h1, h2, h3, h4⟩ := selectPaths_zero_quota (Env.plain clk) 2147483647
    { tick := 3, ranges := 0,
      trace := [Event.now (clk 0), Event.now (clk 1), Event.now (clk 2)], limiters := [],
      clients := [⟨some "http://p1", some (NewRateLimiter 0 (clk 0)), false⟩,
                  ⟨some "http://p2", some (NewRateLimiter 0 (clk 1)), false⟩,
                  ⟨some "http://p3", some (NewRateLimiter 0 (clk 2)), false⟩],
      proxyIndex := 0 }
    (by simp) (by simp) (by simp) hinv0
  refine ⟨⟨{ Domain := "d", Key := "X-Api-Key", Values := [[("k", 1)]], DirectAccess := false,
             DirectAccessTPS := 0, ProxyTPS := 0,
             Proxies := ["http://p1", "http://p2", "http://p3"] }, [("k", 1)]⟩,
    { tick := 3, ranges := 0,
      trace := [Event.now (clk 0), Event.now (clk 1), Event.now (clk 2)], limiters := [],
      clients := [⟨some "http://p1", some (NewRateLimiter 0 (clk 0)), false⟩,
                  ⟨some "http://p2", some (NewRateLimiter 0 (clk 1)), false⟩,
                  ⟨some "http://p3", some (NewRateLimiter 0 (clk 2)), false⟩],
      proxyIndex := 0 }, paths, w1, ?_, h1, h3, by simpa using h2, ?_⟩
  · rfl
  · exact getNextClient_panics_at_max _ w1 h3 (by simpa using h2) h4

/-- The loop of `getNextClient` started at a cursor that is not negative never
indexes outside the pool: it ends with a path of the pool, or with no
selection and the cursor where it was. -/
theorem scanClients_in_range (env : Env) (startIdx : Int) (hs : 0 ≤ startIdx) :
    ∀ (n i : Nat) (w : World), w.clients ≠ [] →
      ∃ r w1, scanClients env startIdx i n w = some (r, w1) ∧
        w1.clients.length = w.clients.length ∧
        (∀ idx, r = some idx → idx < w.clients.length) ∧
        (r = none → w1.proxyIndex = w.proxyIndex) := by
  intro n
  induction n with
  | zero =>
    intro i w _
    exact ⟨none, w, by simp [scanClients], rfl, fun _ h => (by cases h), fun _ => rfl⟩
  | succ n ih =>
    intro i w hne
    have hpos : 0 < w.clients.length := List.length_pos.mpr hne
    have hm0 := Int.emod_nonneg (startIdx + (i : Int)) (by omega : (w.clients.length : Int) ≠ 0)
    have hm1 := Int.emod_lt_of_pos (startIdx + (i : Int)) (by omega : (0 : Int) < w.clients.length)
    have ht : Int.tmod (startIdx + (i : Int)) (w.clients.length : Int) =
        (startIdx + (i : Int)) % (w.clients.length : Int) :=
      Int.tmod_eq_emod (by omega) (by omega)
    obtain ⟨j, hj⟩ : ∃ j : Nat, (j : Int) = (startIdx + (i : Int)) % (w.clients.length : Int) :=
      ⟨((startIdx + (i : Int)) % (w.clients.length : Int)).toNat, by omega⟩
    have hjlt : j < w.clients.length := by omega
    have hget : w.clients[j]? = some w.clients[j] := List.getElem?_eq_getElem hjlt
    have hnn : ¬ ((j : Int) < 0) := by omega
    cases hrl : w.clients[j].RateLimiter with
    | none =>
      refine ⟨some j, { w with proxyIndex := wrap32 (j : Int) }, ?_, rfl, ?_, fun h => by cases h⟩
      · simp only [scanClients, ht, ← hj, hnn, if_false, Int.toNat_ofNat, hget, hrl]
      · intro idx h
        cases h
        exact hjlt
    | some rl =>
      by_cases ha : (rl.Allow (env.clk w.tick)).1 = true
      · refine ⟨some j,
          { tick := w.tick + 1, ranges := w.ranges,
            trace := w.trace ++ [Event.now (env.clk w.tick)], limiters := w.limiters,
            clients := w.clients.set j
              { w.clients[j] with RateLimiter := some (rl.Allow (env.clk w.tick)).2 },
            proxyIndex := wrap32 (j : Int) }, ?_, by simp, ?_, fun h => by cases h⟩
        · simp only [scanClients, ht, ← hj, hnn, if_false, Int.toNat_ofNat, hget, hrl, timeNow,
            ha, if_true]
        · intro idx h
          cases h
          exact hjlt
      · obtain ⟨r, w1, h1, h2, h3, h4⟩ := ih (i + 1)
          { tick := w.tick + 1, ranges := w.ranges,
            trace := w.trace ++ [Event.now (env.clk w.tick)], limiters := w.limiters,
            clients := w.clients.set j
              { w.clients[j] with RateLimiter := some (rl.Allow (env.clk w.tick)).2 },
            proxyIndex := w.proxyIndex }
          (by
            simp only [ne_eq]
            intro hc
            have := congrArg List.length hc
            simp only [List.length_set, List.length_nil] at this
            omega)
        simp only [List.length_set] at h1 h2 h3 h4
        refine ⟨r, w1, ?_, h2, h3, h4⟩
        rw [← h1]
        simp only [scanClients, ht, ← hj, hnn, if_false, Int.toNat_ofNat, hget, hrl, timeNow, ha,
          Bool.false_eq_true, Nat.cast_add, Nat.cast_one]

/-- While the cursor is not negative and can be advanced by one inside the
32-bit range, `getNextClient` returns a path of the pool, whatever the
limiters answer. -/
theorem getNextClient_in_range (env : Env) (w : World) (hne : w.clients ≠ [])
    (hcur : 0 ≤ w.proxyIndex) (hmax : w.proxyIndex + 1 < 2147483648) :
    ∃ idx w1, getNextClient env w = some (idx, w1) ∧ idx < w.clients.length := by
  obtain ⟨r, w1, h1, h2, h3, h4⟩ :=
    scanClients_in_range env w.proxyIndex hcur w.clients.length 0 w hne
  have hpos : 0 < w.clients.length := List.length_pos.mpr hne
  cases r with
  | some idx =>
    exact ⟨idx, w1, by simp only [getNextClient, h1], h3 idx rfl⟩
  | none =>
    have h4' := h4 rfl
    have hw : wrap32 (w.proxyIndex + 1) = w.proxyIndex + 1 := wrap32_of_lt _ (by omega) hmax
    have hm0 := Int.emod_nonneg (w.proxyIndex + 1) (by omega : (w.clients.length : Int) ≠ 0)
    have hm1 := Int.emod_lt_of_pos (w.proxyIndex + 1) (by omega : (0 : Int) < w.clients.length)
    have ht : Int.tmod (w.proxyIndex + 1) (w.clients.length : Int) =
        (w.proxyIndex + 1) % (w.clients.length : Int) :=
      Int.tmod_eq_emod (by omega) (by omega)
    have hlen0 : ¬ w.clients.length = 0 := by omega
    have hnn : ¬ ((w.proxyIndex + 1) % (w.clients.length : Int) < 0) := by omega
    have hlt : ((w.proxyIndex + 1) % (w.clients.length : Int)).toNat < w.clients.length := by
      omega
    refine ⟨((w.proxyIndex + 1) % (w.clients.length : Int)).toNat,
      { timeSleep (50 * Millisecond) w1 with proxyIndex := w.proxyIndex + 1 }, ?_, hlt⟩
    simp only [getNextClient, h1, timeSleep, h4', hw, h2, hlen0, if_false, ht, hnn, hlt, if_true]

/-! ## One key of quota 2 and direct access of quota 5 -/

theorem Sub_lt_Second (t u : Int) : Sub t u < Second ↔ t - u < Second := by
  have := Sub_ge_Second t u
  constructor
  · intro h
    by_contra hc
    have := this.mpr (by omega)
    omega
  · intro h
    by_contra hc
    have := this.mp (by omega)
    omega

theorem scanKeys_one_unregistered (env : Env) (w : World) (k : String) (q : Int)
    (h : lookup k w.limiters = none) : scanKeys env [(k, q)] w = (some (k, q), w) := by
  simp only [scanKeys, h]

theorem scanKeys_one_available (env : Env) (w : World) (k : String) (q : Int)
    (rl : RateLimiter) (hrl : lookup k w.limiters = some rl) (hroom : rl.requests < rl.limit)
    (hwin : Sub (env.clk w.tick) rl.lastReset < rl.window) :
    scanKeys env [(k, q)] w =
      (some (k, q), { tick := w.tick + 1, ranges := w.ranges,
                      trace := w.trace ++ [Event.now (env.clk w.tick)],
                      limiters := w.limiters, clients := w.clients,
                      proxyIndex := w.proxyIndex }) := by
  have hn : ¬ rl.requests ≥ rl.limit := by omega
  simp only [scanKeys, hrl, timeNow, IsLimited_of_not_elapsed rl _ hwin, hn, decide_False,
    Bool.not_false, if_true, store_of_lookup k rl w.limiters hrl]

/-- A key found by the first scan of `GetAvailableKey` is returned by
`getNextAPIKey` when it is not the empty string. -/
theorem getNextAPIKey_found (env : Env) (c : Client) (w w1 : World) (k : String) (q : Int)
    (hk : k ≠ "")
    (hscan : scanKeys env (rangeKeys env c.apiKeys w).1 (rangeKeys env c.apiKeys w).2 =
      (some (k, q), w1)) :
    getNextAPIKey env c w = ((k, q, none), w1) := by
  have g : GetAvailableKey env c.apiKeys w = ((k, q), w1) := by
    unfold GetAvailableKey
    dsimp only
    rw [hscan]
  simp only [getNextAPIKey, getNextAPIKeyLoop, g, ne_eq, hk, not_false_eq_true, if_true]

/-- The handler forwards a request that is given a key, passes the consuming
check and gets a path. -/
theorem ProxyHandler_forwarded (env : Env) (c : Client) (r : Request) (w w1 w2 w3 : World)
    (k : String) (q : Int) (rl rl1 : RateLimiter) (L : List (String × RateLimiter))
    (idx s : Nat) (hm : r.Method ≠ "OPTIONS")
    (hkey : getNextAPIKey env c w = ((k, q, none), w1))
    (hget : GetLimiter env k q w1 = (rl, w2))
    (hallow : rl.Allow (env.clk w2.tick) = (true, rl1))
    (hstore : store k rl1 w2.limiters = L)
    (hpath : getNextClient env
      { tick := w2.tick + 1, ranges := w2.ranges,
        trace := w2.trace ++ [Event.now (env.clk w2.tick)],
        limiters := L, clients := w2.clients, proxyIndex := w2.proxyIndex } = some (idx, w3))
    (hurl : env.urlParse c.config.Domain = true) (hreq : env.newRequest r.Method = true)
    (hup : env.roundTrip w3.tick idx
      { Method := r.Method, Domain := c.config.Domain, Path := r.Path, RawQuery := r.RawQuery,
        Header := outboundHeader c.config.Key r.Header k } = some s)
    (hs : 100 ≤ s ∧ s ≤ 999) :
    ProxyHandler env c r w =
      some (s, { w3 with
        trace := w3.trace ++ [Event.send idx
          { Method := r.Method, Domain := c.config.Domain, Path := r.Path,
            RawQuery := r.RawQuery,
            Header := outboundHeader c.config.Key r.Header k }] }) := by
  have hcode : ¬ (s < 100 ∨ s > 999) := by omega
  unfold ProxyHandler
  simp only [hm, if_false, hkey, hget, timeNow, hallow, hstore, Bool.not_true,
    Bool.false_eq_true, hpath, hurl, hreq, hup, hcode]

theorem store_head {β : Type} (k : String) (v v0 : β) (m : List (String × β)) :
    store k v ((k, v0) :: m) = (k, v) :: m := by
  simp [store]

theorem ProxyHandler_no_key (env : Env) (c : Client) (r : Request) (w w1 : World)
    (e : String) (hm : r.Method ≠ "OPTIONS")
    (hkey : getNextAPIKey env c w = (("", 0, some e), w1)) :
    ProxyHandler env c r w = some (429, w1) := by
  unfold ProxyHandler
  simp only [hm, if_false, hkey]

theorem Allow_of_room_in_window (rl : RateLimiter) (now : Int)
    (hwin : Sub now rl.lastReset < rl.window) (hroom : rl.requests < rl.limit) :
    rl.Allow now = (true, { rl with requests := rl.requests + 1 }) := by
  have h1 : ¬ Sub now rl.lastReset ≥ rl.window := by omega
  have h2 : ¬ rl.requests ≥ rl.limit := by omega
  rw [Allow_eq_of_not_elapsed rl now h1, if_neg h2]

theorem handleAll_cons (env : Env) (c : Client) (r : Request) (rs : List Request)
    (w w1 w2 : World) (s : Nat) (ss : List Nat) (h1 : ProxyHandler env c r w = some (s, w1))
    (h2 : handleAll env c rs w1 = some (ss, w2)) :
    handleAll env c (r :: rs) w = some (s :: ss, w2) := by
  simp only [handleAll, h1, h2]

theorem handleAll_nil (env : Env) (c : Client) (w : World) :
    handleAll env c [] w = some ([], w) := rfl

/-- Counterexample to C5 as stated, one key of quota 2 and direct access of
quota 5 in each part. First part: three GET requests start 0 ms, 400 ms and
700 ms after the key limiter was created; the third finds the key exhausted
at 700, 750, 850 and 900 ms, its retry delays carry its fifth probe to
1000 ms, where `IsLimited` rolls the window over, and it is forwarded: the
statuses are 200, 200, 200, and the clock readings agree with the sleeps of
the trace. Second part: when the one key is the empty string, which
`LoadConfig` accepts, `getNextAPIKey` takes the key it is given for "no key"
and all three requests are answered 429. Third part: when the upstream
answers with status 99, the handler panics in `WriteHeader` on the first
request and the caller receives no status. -/
theorem three_requests_third_forwarded :
    (clockOfMillis [0, 0, 0, 0, 400, 400, 400, 700, 750, 850, 900, 1000] 7 < Second) ∧
      ((NewClient (Env.plain (clockOfMillis [0, 0, 0, 0, 400, 400, 400, 700, 750, 850, 900, 1000]))
        { Domain := "https://upstream", Key := "X-Api-Key", Values := [[("k", 2)]],
          DirectAccess := true, DirectAccessTPS := 5, ProxyTPS := 0, Proxies := [] }
        World.start).bind
        (fun r => handleAll
          (Env.plain (clockOfMillis [0, 0, 0, 0, 400, 400, 400, 700, 750, 850, 900, 1000])) r.1
          [⟨"GET", "/a", "", []⟩, ⟨"GET", "/b", "", []⟩, ⟨"GET", "/c", "", []⟩] r.2)).map
        (fun r => (r.1, clockAgrees none r.2.trace)) = some ([200, 200, 200], true) ∧
      ((NewClient (Env.plain clockSteps)
        { Domain := "https://upstream", Key := "X-Api-Key", Values := [[("", 2)]],
          DirectAccess := true, DirectAccessTPS := 5, ProxyTPS := 0, Proxies := [] }
        World.start).bind
        (fun r => handleAll (Env.plain clockSteps) r.1
          [⟨"GET", "/a", "", []⟩, ⟨"GET", "/b", "", []⟩, ⟨"GET", "/c", "", []⟩] r.2)).map
        (fun r => (r.1, clockAgrees none r.2.trace)) = some ([429, 429, 429], true) ∧
      (NewClient (Env.answering clockSteps 99)
        { Domain := "https://upstream", Key := "X-Api-Key", Values := [[("k", 2)]],
          DirectAccess := true, DirectAccessTPS := 5, ProxyTPS := 0, Proxies := [] }
        World.start).bind
        (fun r => ProxyHandler (Env.answering clockSteps 99) r.1 ⟨"GET", "/a", "", []⟩ r.2) =
        none := by
  decide

/-- C5, amended. With exactly one API key, not the empty string, of quota 2
and direct access only with quota 5, three requests other than OPTIONS are
handled one after another by `ProxyHandler` right after `NewClient`. When the
clock is monotonic and the last probe of the key limiter made for the third
request (clock reading 12, at least 350 ms after that request started) comes
less than one second after the first request created that limiter (clock
reading 1), the first two requests pass both rate-limit stages and are
forwarded, the caller receiving the status `s1`, `s2` with which the upstream
answers them, a status that `WriteHeader` accepts (100 to 999), and the third
is answered with status 429. -/
theorem three_requests_two_forwarded_third_429 (env : Env) (domain keyHeader k : String)
    (proxyTPS : Int) (r1 r2 r3 : Request) (s1 s2 : Nat) (hk : k ≠ "")
    (hsh : ∀ n, (env.shuffle n [(k, 2)]).Perm [(k, 2)])
    (hm1 : r1.Method ≠ "OPTIONS") (hm2 : r2.Method ≠ "OPTIONS") (hm3 : r3.Method ≠ "OPTIONS")
    (hurl : env.urlParse domain = true)
    (hreq1 : env.newRequest r1.Method = true) (hreq2 : env.newRequest r2.Method = true)
    (hup1 : env.roundTrip 4 0
      { Method := r1.Method, Domain := domain, Path := r1.Path, RawQuery := r1.RawQuery,
        Header := outboundHeader keyHeader r1.Header k } = some s1)
    (hup2 : env.roundTrip 7 0
      { Method := r2.Method, Domain := domain, Path := r2.Path, RawQuery := r2.RawQuery,
        Header := outboundHeader keyHeader r2.Header k } = some s2)
    (hs1 : 100 ≤ s1 ∧ s1 ≤ 999) (hs2 : 100 ≤ s2 ∧ s2 ≤ 999)
    (hmono : ∀ i j, i ≤ j → env.clk i ≤ env.clk j)
    (hlast : env.clk 12 - env.clk 1 < Second) :
    ∃ c w0 w3,
      NewClient env
        { Domain := domain, Key := keyHeader, Values := [[(k, 2)]], DirectAccess := true,
          DirectAccessTPS := 5, ProxyTPS := proxyTPS, Proxies := [] } World.start = some (c, w0) ∧
      handleAll env c [r1, r2, r3] w0 = some ([s1, s2, 429], w3) := by
  have hw : ∀ i, 1 ≤ i → i ≤ 12 → Sub (env.clk i) (env.clk 1) < Second := by
    intro i h1 h12
    rw [Sub_lt_Second]
    have := hmono i 12 h12
    omega
  have e0 : ∀ v : World, (rangeKeys env [(k, 2)] v).1 = [(k, 2)] :=
    fun v => List.perm_singleton.mp (hsh v.ranges)
  -- the limiter of the direct path has room for both calls
  have hD0 := Allow_with_room (NewRateLimiter 5 (env.clk 0)) (env.clk 3) 1 (le_refl _)
    (by simp [NewRateLimiter])
  have hD1 := Allow_with_room ((NewRateLimiter 5 (env.clk 0)).Allow (env.clk 3)).2 (env.clk 6) 0
    hD0.2.1 hD0.2.2
  -- first request: the key has no limiter yet
  have hkey1 : getNextAPIKey env ⟨⟨domain, keyHeader, [[(k, 2)]], true, 5, proxyTPS, []⟩, [(k, 2)]⟩
      ⟨1, 0,
       [Event.now (env.clk 0)],
       [],
       [⟨none, some (NewRateLimiter 5 (env.clk 0)), true⟩], 0⟩ =
      ((k, 2, none),
      ⟨1, 1,
       [Event.now (env.clk 0)],
       [],
       [⟨none, some (NewRateLimiter 5 (env.clk 0)), true⟩], 0⟩) :=
    getNextAPIKey_found env _ _ _ k 2 hk
      (by rw [e0]; exact scanKeys_one_unregistered env _ k 2 rfl)
  have hget1 : GetLimiter env k 2
      ⟨1, 1,
       [Event.now (env.clk 0)],
       [],
       [⟨none, some (NewRateLimiter 5 (env.clk 0)), true⟩], 0⟩ =
      (NewRateLimiter 2 (env.clk 1),
      ⟨2, 1,
       [Event.now (env.clk 0), Event.now (env.clk 1)],
       [(k, NewRateLimiter 2 (env.clk 1))],
       [⟨none, some (NewRateLimiter 5 (env.clk 0)), true⟩], 0⟩) :=
    GetLimiter_of_none env k 2 _ rfl
  have hA1 : (NewRateLimiter 2 (env.clk 1)).Allow (env.clk 2) = (true, ⟨2, Second, 1, env.clk 1⟩) :=
    Allow_of_room_in_window (NewRateLimiter 2 (env.clk 1)) (env.clk 2)
      (hw 2 (by decide) (by decide)) (by simp [NewRateLimiter])
  have hpath1 : getNextClient env
      ⟨3, 1,
       [Event.now (env.clk 0), Event.now (env.clk 1), Event.now (env.clk 2)],
       [(k, ⟨2, Second, 1, env.clk 1⟩)],
       [⟨none, some (NewRateLimiter 5 (env.clk 0)), true⟩], 0⟩ =
      some (0,
      ⟨4, 1,
       [Event.now (env.clk 0), Event.now (env.clk 1), Event.now (env.clk 2),
        Event.now (env.clk 3)],
       [(k, ⟨2, Second, 1, env.clk 1⟩)],
       [⟨none, some (((NewRateLimiter 5 (env.clk 0)).Allow (env.clk 3)).2), true⟩], 0⟩) :=
    getNextClient_at_cursor env _ ⟨none, some (NewRateLimiter 5 (env.clk 0)), true⟩ 0 (le_refl _) (by simp)
      (by simp) rfl
      (fun rl hrl => by
        simp only [Option.some.injEq] at hrl
        rw [← hrl]
        exact hD0.1)
  have h1 : ProxyHandler env ⟨⟨domain, keyHeader, [[(k, 2)]], true, 5, proxyTPS, []⟩, [(k, 2)]⟩ r1
      ⟨1, 0,
       [Event.now (env.clk 0)],
       [],
       [⟨none, some (NewRateLimiter 5 (env.clk 0)), true⟩], 0⟩ =
      some (s1,
      ⟨4, 1,
       [Event.now (env.clk 0), Event.now (env.clk 1), Event.now (env.clk 2),
        Event.now (env.clk 3),
        Event.send 0 ⟨r1.Method, domain, r1.Path, r1.RawQuery, outboundHeader keyHeader r1.Header k⟩],
       [(k, ⟨2, Second, 1, env.clk 1⟩)],
       [⟨none, some (((NewRateLimiter 5 (env.clk 0)).Allow (env.clk 3)).2), true⟩], 0⟩) :=
    ProxyHandler_forwarded env _ r1 _ _ _ _ k 2 _ _ _ 0 s1 hm1 hkey1 hget1 hA1
      (store_head k _ _ _) hpath1 hurl hreq1 hup1 hs1
  -- second request: the limiter of the key has one request left
  have hkey2 : getNextAPIKey env ⟨⟨domain, keyHeader, [[(k, 2)]], true, 5, proxyTPS, []⟩, [(k, 2)]⟩
      ⟨4, 1,
       [Event.now (env.clk 0), Event.now (env.clk 1), Event.now (env.clk 2),
        Event.now (env.clk 3),
        Event.send 0 ⟨r1.Method, domain, r1.Path, r1.RawQuery, outboundHeader keyHeader r1.Header k⟩],
       [(k, ⟨2, Second, 1, env.clk 1⟩)],
       [⟨none, some (((NewRateLimiter 5 (env.clk 0)).Allow (env.clk 3)).2), true⟩], 0⟩ =
      ((k, 2, none),
      ⟨5, 2,
       [Event.now (env.clk 0), Event.now (env.clk 1), Event.now (env.clk 2),
        Event.now (env.clk 3),
        Event.send 0 ⟨r1.Method, domain, r1.Path, r1.RawQuery, outboundHeader keyHeader r1.Header k⟩,
        Event.now (env.clk 4)],
       [(k, ⟨2, Second, 1, env.clk 1⟩)],
       [⟨none, some (((NewRateLimiter 5 (env.clk 0)).Allow (env.clk 3)).2), true⟩], 0⟩) :=
    getNextAPIKey_found env _ _ _ k 2 hk
      (by
        rw [e0]
        exact scanKeys_one_available env _ k 2 ⟨2, Second, 1, env.clk 1⟩ (by simp [rangeKeys, lookup])
          (by norm_num) (hw 4 (by decide) (by decide)))
  have hget2 : GetLimiter env k 2
      ⟨5, 2,
       [Event.now (env.clk 0), Event.now (env.clk 1), Event.now (env.clk 2),
        Event.now (env.clk 3),
        Event.send 0 ⟨r1.Method, domain, r1.Path, r1.RawQuery, outboundHeader keyHeader r1.Header k⟩,
        Event.now (env.clk 4)],
       [(k, ⟨2, Second, 1, env.clk 1⟩)],
       [⟨none, some (((NewRateLimiter 5 (env.clk 0)).Allow (env.clk 3)).2), true⟩], 0⟩ =
      (⟨2, Second, 1, env.clk 1⟩,
      ⟨5, 2,
       [Event.now (env.clk 0), Event.now (env.clk 1), Event.now (env.clk 2),
        Event.now (env.clk 3),
        Event.send 0 ⟨r1.Method, domain, r1.Path, r1.RawQuery, outboundHeader keyHeader r1.Header k⟩,
        Event.now (env.clk 4)],
       [(k, ⟨2, Second, 1, env.clk 1⟩)],
       [⟨none, some (((NewRateLimiter 5 (env.clk 0)).Allow (env.clk 3)).2), true⟩], 0⟩) :=
    GetLimiter_of_some env k 2 _ _ (by simp [lookup])
  have hA2 : (⟨2, Second, 1, env.clk 1⟩ : RateLimiter).Allow (env.clk 5) = (true, ⟨2, Second, 2, env.clk 1⟩) :=
    Allow_of_room_in_window ⟨2, Second, 1, env.clk 1⟩ (env.clk 5) (hw 5 (by decide) (by decide)) (by norm_num)
  have hpath2 : getNextClient env
      ⟨6, 2,
       [Event.now (env.clk 0), Event.now (env.clk 1), Event.now (env.clk 2),
        Event.now (env.clk 3),
        Event.send 0 ⟨r1.Method, domain, r1.Path, r1.RawQuery, outboundHeader keyHeader r1.Header k⟩,
        Event.now (env.clk 4), Event.now (env.clk 5)],
       [(k, ⟨2, Second, 2, env.clk 1⟩)],
       [⟨none, some (((NewRateLimiter 5 (env.clk 0)).Allow (env.clk 3)).2), true⟩], 0⟩ =
      some (0,
      ⟨7, 2,
       [Event.now (env.clk 0), Event.now (env.clk 1), Event.now (env.clk 2),
        Event.now (env.clk 3),
        Event.send 0 ⟨r1.Method, domain, r1.Path, r1.RawQuery, outboundHeader keyHeader r1.Header k⟩,
        Event.now (env.clk 4), Event.now (env.clk 5), Event.now (env.clk 6)],
       [(k, ⟨2, Second, 2, env.clk 1⟩)],
       [⟨none, some (((((NewRateLimiter 5 (env.clk 0)).Allow (env.clk 3)).2).Allow (env.clk 6)).2), true⟩], 0⟩) :=
    getNextClient_at_cursor env _ ⟨none, some (((NewRateLimiter 5 (env.clk 0)).Allow (env.clk 3)).2), true⟩ 0 (le_refl _) (by simp)
      (by simp) rfl
      (fun rl hrl => by
        simp only [Option.some.injEq] at hrl
        rw [← hrl]
        exact hD1.1)
  have h2 : ProxyHandler env ⟨⟨domain, keyHeader, [[(k, 2)]], true, 5, proxyTPS, []⟩, [(k, 2)]⟩ r2
      ⟨4, 1,
       [Event.now (env.clk 0), Event.now (env.clk 1), Event.now (env.clk 2),
        Event.now (env.clk 3),
        Event.send 0 ⟨r1.Method, domain, r1.Path, r1.RawQuery, outboundHeader keyHeader r1.Header k⟩],
       [(k, ⟨2, Second, 1, env.clk 1⟩)],
       [⟨none, some (((NewRateLimiter 5 (env.clk 0)).Allow (env.clk 3)).2), true⟩], 0⟩ =
      some (s2,
      ⟨7, 2,
       [Event.now (env.clk 0), Event.now (env.clk 1), Event.now (env.clk 2),
        Event.now (env.clk 3),
        Event.send 0 ⟨r1.Method, domain, r1.Path, r1.RawQuery, outboundHeader keyHeader r1.Header k⟩,
        Event.now (env.clk 4), Event.now (env.clk 5), Event.now (env.clk 6),
        Event.send 0 ⟨r2.Method, domain, r2.Path, r2.RawQuery, outboundHeader keyHeader r2.Header k⟩],
       [(k, ⟨2, Second, 2, env.clk 1⟩)],
       [⟨none, some (((((NewRateLimiter 5 (env.clk 0)).Allow (env.clk 3)).2).Allow (env.clk 6)).2), true⟩], 0⟩) :=
    ProxyHandler_forwarded env _ r2 _ _ _ _ k 2 _ _ _ 0 s2 hm2 hkey2 hget2 hA2
      (store_head k _ _ _) hpath2 hurl hreq2 hup2 hs2
  -- third request: the limiter of the key is exhausted at all six probes
  have hkey3 := getNextAPIKey_exhausted_run env ⟨⟨domain, keyHeader, [[(k, 2)]], true, 5, proxyTPS, []⟩, [(k, 2)]⟩
      ⟨7, 2,
       [Event.now (env.clk 0), Event.now (env.clk 1), Event.now (env.clk 2),
        Event.now (env.clk 3),
        Event.send 0 ⟨r1.Method, domain, r1.Path, r1.RawQuery, outboundHeader keyHeader r1.Header k⟩,
        Event.now (env.clk 4), Event.now (env.clk 5), Event.now (env.clk 6),
        Event.send 0 ⟨r2.Method, domain, r2.Path, r2.RawQuery, outboundHeader keyHeader r2.Header k⟩],
       [(k, ⟨2, Second, 2, env.clk 1⟩)],
       [⟨none, some (((((NewRateLimiter 5 (env.clk 0)).Allow (env.clk 3)).2).Allow (env.clk 6)).2), true⟩], 0⟩
    k 2 ⟨2, Second, 2, env.clk 1⟩ rfl hsh (by simp [lookup]) (by norm_num)
    (fun i hi => hw (7 + i) (by omega) (by omega))
  have h3 := ProxyHandler_no_key env _ r3 _ _ _ hm3 hkey3
  exact ⟨_, _, _, rfl, handleAll_cons env _ r1 _ _ _ _ s1 _ h1
    (handleAll_cons env _ r2 _ _ _ _ s2 _ h2
      (handleAll_cons env _ r3 _ _ _ _ 429 _ h3 (handleAll_nil env _ _)))⟩

theorem clockSteps_mono (i j : Nat) (h : i ≤ j) : clockSteps i ≤ clockSteps j := by
  unfold clockSteps Millisecond
  split_ifs <;> omega

/-- Witness of C5: the key "k", an upstream that answers 200 and a clock that
agrees with the sleeps of the run: the requests start 1 ms apart and the six
probes of the third request come 100 ms apart, the last one 506 ms after the
key limiter was created. -/
theorem three_requests_two_forwarded_third_429_witness :
    (∃ c w0 w3,
      NewClient (Env.plain clockSteps)
        { Domain := "https://upstream", Key := "X-Api-Key", Values := [[("k", 2)]],
          DirectAccess := true, DirectAccessTPS := 5, ProxyTPS := 0, Proxies := [] }
        World.start = some (c, w0) ∧
      handleAll (Env.plain clockSteps) c
        [⟨"GET", "/a", "", []⟩, ⟨"POST", "/b", "x=1", []⟩, ⟨"GET", "/c", "", []⟩] w0 =
        some ([200, 200, 429], w3)) ∧
      ((NewClient (Env.plain clockSteps)
        { Domain := "https://upstream", Key := "X-Api-Key", Values := [[("k", 2)]],
          DirectAccess := true, DirectAccessTPS := 5, ProxyTPS := 0, Proxies := [] }
        World.start).bind
        (fun r => handleAll (Env.plain clockSteps) r.1
          [⟨"GET", "/a", "", []⟩, ⟨"POST", "/b", "x=1", []⟩, ⟨"GET", "/c", "", []⟩] r.2)).map
        (fun r => clockAgrees none r.2.trace) = some true :=
  ⟨three_requests_two_forwarded_third_429 (Env.plain clockSteps) "https://upstream"
      "X-Api-Key" "k" 0 ⟨"GET", "/a", "", []⟩ ⟨"POST", "/b", "x=1", []⟩ ⟨"GET", "/c", "", []⟩
      200 200 (by decide) (fun _ => List.Perm.refl _) (by decide) (by decide) (by decide) rfl
      rfl rfl rfl rfl (by decide) (by decide) clockSteps_mono (by decide),
    by decide⟩

/-! ## The headers of the outbound request -/

theorem canonical_Accept : CanonicalMIMEHeaderKey "Accept" = "Accept" := by decide

theorem canonical_ContentType : CanonicalMIMEHeaderKey "Content-Type" = "Content-Type" := by
  decide

/-- Adding the values `vs` under `key`, one after another, appends them to
the values under the canonical form of `key` and touches no other key. -/
theorem foldl_Add (key : String) :
    ∀ (vs : List String) (out : Header),
      (lookup (CanonicalMIMEHeaderKey key)
          (vs.foldl (fun o value => Header.Add o key value) out)).getD [] =
        (lookup (CanonicalMIMEHeaderKey key) out).getD [] ++ vs ∧
      ∀ x, x ≠ CanonicalMIMEHeaderKey key →
        lookup x (vs.foldl (fun o value => Header.Add o key value) out) = lookup x out := by
  intro vs
  induction vs with
  | nil => intro out; simp
  | cons v vs ih =>
    intro out
    obtain ⟨ih1, ih2⟩ := ih (Header.Add out key v)
    simp only [List.foldl_cons]
    constructor
    · rw [ih1]
      simp [Header.Add, lookup_store_self]
    · intro x hx
      rw [ih2 x hx]
      exact lookup_store_ne _ x _ hx _

/-- The copying loop leaves alone every key that is not the name of a header
it copies. -/
theorem copyHeaders_other (cfgKey x : String) :
    ∀ (l out : Header), (∀ p ∈ l, CanonicalMIMEHeaderKey p.1 = p.1) →
      (∀ p ∈ l, p.1 ≠ cfgKey → p.1 ≠ x) →
      lookup x (copyHeaders cfgKey l out) = lookup x out := by
  intro l
  induction l with
  | nil => intro out _ _; rfl
  | cons p l ih =>
    obtain ⟨key, values⟩ := p
    intro out hcan hne
    have hcan' : ∀ p ∈ l, CanonicalMIMEHeaderKey p.1 = p.1 :=
      fun p hp => hcan p (List.mem_cons_of_mem _ hp)
    have hne' : ∀ p ∈ l, p.1 ≠ cfgKey → p.1 ≠ x :=
      fun p hp => hne p (List.mem_cons_of_mem _ hp)
    by_cases hk : key = cfgKey
    · simp only [copyHeaders, hk, ne_eq, not_true_eq_false, if_false]
      exact ih out hcan' hne'
    · simp only [copyHeaders, ne_eq, hk, not_false_eq_true, if_true]
      rw [ih _ hcan' hne']
      have hx : x ≠ CanonicalMIMEHeaderKey key := by
        rw [hcan (key, values) (List.mem_cons_self _ _)]
        exact fun e => hne (key, values) (List.mem_cons_self _ _) hk e.symm
      exact (foldl_Add key values out).2 x hx

/-- The copying loop appends the values of a copied header, in their order,
under its name. -/
theorem copyHeaders_copied (cfgKey x : String) (vs : List String) (hx : x ≠ cfgKey) :
    ∀ (l out : Header), (∀ p ∈ l, CanonicalMIMEHeaderKey p.1 = p.1) →
      (l.map Prod.fst).Nodup → (x, vs) ∈ l →
      (lookup x (copyHeaders cfgKey l out)).getD [] = (lookup x out).getD [] ++ vs := by
  intro l
  induction l with
  | nil => intro out _ _ h; cases h
  | cons p l ih =>
    obtain ⟨key, values⟩ := p
    intro out hcan hnd hmem
    have hcan' : ∀ p ∈ l, CanonicalMIMEHeaderKey p.1 = p.1 :=
      fun p hp => hcan p (List.mem_cons_of_mem _ hp)
    simp only [List.map_cons, List.nodup_cons] at hnd
    rcases List.mem_cons.mp hmem with heq | hin
    · simp only [Prod.mk.injEq] at heq
      obtain ⟨rfl, rfl⟩ := heq
      have hcx : CanonicalMIMEHeaderKey x = x := hcan (x, vs) (List.mem_cons_self _ _)
      simp only [copyHeaders, ne_eq, hx, not_false_eq_true, if_true]
      rw [copyHeaders_other cfgKey x l _ hcan'
        (fun p hp _ e => hnd.1 (e ▸ List.mem_map_of_mem Prod.fst hp))]
      have := (foldl_Add x vs out).1
      rw [hcx] at this
      exact this
    · have hkx : key ≠ x := fun e => hnd.1 (e ▸ List.mem_map_of_mem Prod.fst hin)
      by_cases hk : key = cfgKey
      · simp only [copyHeaders, hk, ne_eq, not_true_eq_false, if_false]
        exact ih out hcan' hnd.2 hin
      · simp only [copyHeaders, ne_eq, hk, not_false_eq_true, if_true]
        rw [ih _ hcan' hnd.2 hin]
        have hx' : x ≠ CanonicalMIMEHeaderKey key := by
          rw [hcan (key, values) (List.mem_cons_self _ _)]
          exact fun e => hkx e.symm
        rw [(foldl_Add key values out).2 x hx']

/-- Counterexample to C8 as stated: with `Accept` configured as the key header
name, the outbound request carries "application/json" under that name and
not the selected key. -/
theorem key_header_named_Accept_is_overwritten :
    Header.Values (outboundHeader "Accept" [("Accept", ["text/html"])] "secret") "Accept" =
        ["application/json"] ∧
      Header.Values (outboundHeader "Accept" [("Accept", ["text/html"])] "secret") "Accept" ≠
        ["secret"] := by
  decide

/-- C8, amended. For inbound headers as net/http delivers them (distinct
names in canonical form), every selected key and every configured key header
name, in any letter case, whose canonical form is neither `Accept` nor
`Content-Type`: the outbound header set has exactly the selected key under
the key header name, exactly "application/json" under `Accept` and under
`Content-Type`, every other inbound header with its values in their order,
and nothing under any other name. -/
theorem outbound_headers (cfgKey apiKey : String) (inbound : Header)
    (hcan : ∀ p ∈ inbound, CanonicalMIMEHeaderKey p.1 = p.1)
    (hnd : (inbound.map Prod.fst).Nodup)
    (hA : CanonicalMIMEHeaderKey cfgKey ≠ "Accept")
    (hC : CanonicalMIMEHeaderKey cfgKey ≠ "Content-Type") :
    Header.Values (outboundHeader cfgKey inbound apiKey) cfgKey = [apiKey] ∧
      Header.Values (outboundHeader cfgKey inbound apiKey) "Accept" = ["application/json"] ∧
      Header.Values (outboundHeader cfgKey inbound apiKey) "Content-Type" =
        ["application/json"] ∧
      (∀ p ∈ inbound, p.1 ≠ CanonicalMIMEHeaderKey cfgKey → p.1 ≠ "Accept" →
        p.1 ≠ "Content-Type" →
        Header.Values (outboundHeader cfgKey inbound apiKey) p.1 = p.2) ∧
      ∀ x, x ∉ inbound.map Prod.fst → x ≠ CanonicalMIMEHeaderKey cfgKey → x ≠ "Accept" →
        x ≠ "Content-Type" →
        lookup x (outboundHeader cfgKey inbound apiKey) = none := by
  have hAC : ("Accept" : String) ≠ "Content-Type" := by decide
  refine ⟨?_, ?_, ?_, ?_, ?_⟩
  rotate_right
  · intro x hx h1 h2 h3
    simp only [outboundHeader, Header.Set, canonical_Accept, canonical_ContentType]
    rw [lookup_store_ne _ _ _ h3, lookup_store_ne _ _ _ h2, lookup_store_ne _ _ _ h1]
    rw [copyHeaders_other cfgKey x inbound [] hcan
      (fun p hp _ e => hx (e ▸ List.mem_map_of_mem Prod.fst hp))]
    rfl
  · simp only [Header.Values, outboundHeader, Header.Set, canonical_Accept,
      canonical_ContentType]
    rw [lookup_store_ne _ _ _ hC, lookup_store_ne _ _ _ hA, lookup_store_self]
    rfl
  · simp only [Header.Values, outboundHeader, Header.Set, canonical_Accept,
      canonical_ContentType]
    rw [lookup_store_ne _ _ _ hAC, lookup_store_self]
    rfl
  · simp only [Header.Values, outboundHeader, Header.Set, canonical_Accept,
      canonical_ContentType]
    rw [lookup_store_self]
    rfl
  · intro p hp h1 h2 h3
    obtain ⟨x, vs⟩ := p
    have hcx : CanonicalMIMEHeaderKey x = x := hcan (x, vs) hp
    have hx : x ≠ cfgKey := by
      intro e
      apply h1
      simp only
      rw [← e, hcx]
    simp only [Header.Values, outboundHeader, Header.Set, canonical_Accept,
      canonical_ContentType, hcx]
    rw [lookup_store_ne _ _ _ h3, lookup_store_ne _ _ _ h2, lookup_store_ne _ _ _ h1]
    have := copyHeaders_copied cfgKey x vs hx inbound [] hcan hnd hp
    simpa [lookup] using this

/-- Witness of C8: a lower-case key header name and a client that sends its
own value for that header. -/
theorem outbound_headers_witness :
    Header.Values
        (outboundHeader "x-api-key" [("X-Api-Key", ["client"]), ("X-Trace", ["a", "b"])] "secret")
        "x-api-key" = ["secret"] ∧
      Header.Values
        (outboundHeader "x-api-key" [("X-Api-Key", ["client"]), ("X-Trace", ["a", "b"])] "secret")
        "X-Trace" = ["a", "b"] :=
  ⟨(outbound_headers "x-api-key" "secret" [("X-Api-Key", ["client"]), ("X-Trace", ["a", "b"])]
      (by decide) (by decide) (by decide) (by decide)).1,
   (outbound_headers "x-api-key" "secret" [("X-Api-Key", ["client"]), ("X-Trace", ["a", "b"])]
      (by decide) (by decide) (by decide) (by decide)).2.2.2.1 ("X-Trace", ["a", "b"])
      (by decide) (by decide) (by decide) (by decide)⟩

end ApiProxy
